import Mathlib

/-!
Verification development for the obsidian-note-appender plugin
(source file: src/unnamed/part_000, the complete plugin class; src/main.ts
contains an earlier revision with an identical `cleanFileContent`).

The JavaScript/TypeScript source is shallowly embedded over `List Char` /
`String` and `Nat`:

* strings are `String` (a structure over `List Char`); the regex-based
  text transforms of `cleanFileContent` are translated into explicit
  scanners implementing the exact matching semantics of the concrete
  regexes used by the source (greedy/lazy quantifier behaviour is resolved
  by hand for each fixed pattern, as documented at each definition);
* calendar dates are modelled as day numbers: `Nat` counting days since
  0000-01-01 of the proleptic Gregorian calendar, which is the calendar
  arithmetic underlying the JavaScript `Date` UTC time value and the
  date-fns helpers (`startOfWeek`, `getWeek`, `format`).  The host-timezone
  dependence of `date-fns` local-time arithmetic is pinned to UTC, matching
  the spec's locale-independent Sunday-week convention;
* the Obsidian vault is modelled by an association list from path to file
  content, plus an explicit list of input `NoteFile`s (the source reads
  `vault.getFiles()` once, before performing any writes);
* the external GPT endpoint is modelled by a `GPTOutcome` value describing
  the observable result of the single `fetch` call; `new Notice`
  notifications are collected in an output list; a thrown exception that
  escapes an operation is an `Except.error`.
-/

/-- Character set matched by the JavaScript `\s` regex class and removed by
`String.prototype.trim` (ECMAScript WhiteSpace plus LineTerminator). -/
def jsWhitespaceChars : List Char :=
  (" \t\n\r\x0b\x0c\u00a0\u1680\u2000\u2001\u2002\u2003\u2004\u2005\u2006\u2007\u2008\u2009\u200a\u2028\u2029\u202f\u205f\u3000\ufeff").data

/-- Test for JavaScript whitespace (`\s` / `trim`). -/
def isJsWhitespace (c : Char) : Bool :=
  jsWhitespaceChars.contains c

/-- Characters matched by the JavaScript `.` regex atom (without the `s`
flag): anything except a LineTerminator. -/
def notLineTerm (c : Char) : Bool :=
  !(c = '\n' || c = '\r' || c = '\u2028' || c = '\u2029')

/-- Length of the longest prefix of `l` whose characters satisfy `p`. -/
def countWhile (p : Char → Bool) (l : List Char) : Nat :=
  (l.takeWhile p).length

/-- Index of the first occurrence of `pat` as a contiguous sublist of `l`
(the search a lazy regex quantifier performs), or `none`. -/
def firstIndexOf (pat : List Char) : List Char → Option Nat
  | [] => if pat.isPrefixOf ([] : List Char) then some 0 else none
  | c :: cs =>
    if pat.isPrefixOf (c :: cs) then some 0
    else (firstIndexOf pat cs).map (· + 1)

/-- Model of `content.replace(/^---\n[\s\S]*?\n---\n/, '')`, the frontmatter
step of `cleanFileContent` (src/unnamed/part_000 line 139).  The anchored
pattern matches only a literal leading delimiter line, and the lazy
quantifier makes the match end at the earliest later occurrence of the
closing delimiter sequence; with no closing occurrence there is no match and
the text is returned unchanged. -/
def stripFrontmatter (s : List Char) : List Char :=
  if ("---\n").data.isPrefixOf s then
    match firstIndexOf (("\n---\n").data) (s.drop 4) with
    | some j => s.drop (4 + j + 5)
    | none => s
  else s

/-- Test whether the text starts with a checklist-item lead-in, the literal
part of the regex alternative `- \[[ x]\] ` (dash, space, bracketed space or
`x`, space). -/
def checklistLineStart : List Char → Bool
  | '-' :: ' ' :: '[' :: c :: ']' :: ' ' :: _ => c = ' ' || c = 'x'
  | _ => false

/-- Number of characters consumed by `(?:- \[[ x]\] .*\n?)*`: a maximal run
of checklist lines, each `.*` running to the next line terminator and an
optional single following `'\n'`.  `fuel` bounds the recursion; each
iteration consumes at least six characters, so `fuel = s.length` is exact. -/
def checklistRun : Nat → List Char → Nat
  | 0, _ => 0
  | fuel + 1, s =>
    if checklistLineStart s then
      let lineLen := 6 + countWhile notLineTerm (s.drop 6)
      let total := if (s.drop lineLen).head? = some '\n' then lineLen + 1 else lineLen
      total + checklistRun fuel (s.drop total)
    else 0

/-- Match, at the current position, the pattern
`<heading>\s*\n(?:- \[[ x]\] .*\n?)*` used (with heading `# Dailies` and
`# Daily Law`) on lines 142 and 144 of src/unnamed/part_000, returning the
number of characters consumed.  After the literal heading, the greedy `\s*`
followed by `\n` consumes exactly through the last newline of the maximal
whitespace run (backtracking semantics); if that run contains no newline the
whole pattern fails at this position. -/
def headingBlockMatch (heading : List Char) (s : List Char) : Option Nat :=
  if heading.isPrefixOf s then
    let r := s.drop heading.length
    let w := r.takeWhile isJsWhitespace
    if w.contains '\n' then
      let consumedWs := w.length - countWhile (fun c => !(c = '\n')) w.reverse
      let rest := r.drop consumedWs
      some (heading.length + consumedWs + checklistRun rest.length rest)
    else none
  else none

/-- Match, at the current position, the lazy fenced-block pattern
```` ```calendar-nav[\s\S]*?``` ```` of src/unnamed/part_000 line 143,
returning the number of characters consumed: the literal opening fence
through the earliest following closing fence. -/
def calNavMatch (s : List Char) : Option Nat :=
  if ("```calendar-nav").data.isPrefixOf s then
    match firstIndexOf (("```").data) (s.drop 15) with
    | some j => some (15 + j + 3)
    | none => none
  else none

/-- Model of `String.prototype.replace` with a `/g`-flagged regex and empty
replacement: scan left to right, drop each match, continue scanning after
it.  Every matcher used here consumes at least one character on success, so
with `fuel = s.length` the scan is exact. -/
def scanReplaceAux (m : List Char → Option Nat) : Nat → List Char → List Char
  | _, [] => []
  | 0, s => s
  | fuel + 1, c :: cs =>
    match m (c :: cs) with
    | some n => scanReplaceAux m fuel (cs.drop (n - 1))
    | none => c :: scanReplaceAux m fuel cs

/-- Global regex replacement by the empty string (see `scanReplaceAux`). -/
def scanReplaceAll (m : List Char → Option Nat) (s : List Char) : List Char :=
  scanReplaceAux m s.length s

/-- Model of `String.prototype.trim`. -/
def jsTrim (s : List Char) : List Char :=
  ((s.dropWhile isJsWhitespace).reverse.dropWhile isJsWhitespace).reverse

/-- Heading of the first checklist block stripped by `cleanFileContent`. -/
def dailiesHeading : List Char := ("# Dailies").data

/-- Heading of the second checklist block stripped by `cleanFileContent`. -/
def dailyLawHeading : List Char := ("# Daily Law").data

/-- Model of `cleanFileContent` (src/unnamed/part_000 lines 137-147): strip
a leading frontmatter block, then globally strip `# Dailies` checklist
blocks, `calendar-nav` fenced blocks and `# Daily Law` checklist blocks, and
finally trim. -/
def cleanFileContent (content : String) : String :=
  let s1 := stripFrontmatter content.data
  let s2 := scanReplaceAll (headingBlockMatch dailiesHeading) s1
  let s3 := scanReplaceAll calNavMatch s2
  let s4 := scanReplaceAll (headingBlockMatch dailyLawHeading) s3
  String.mk (jsTrim s4)

/-- Convert a proleptic-Gregorian civil date to a day number counted from
0000-01-01 (Howard Hinnant's `days_from_civil`, shifted so that day 60 is
0000-03-01).  This is the day arithmetic of the JavaScript `Date` UTC time
value.  The definition is meaningful for dates from 0000-03-01 on (for
year 0, months 1-2 the `y - 1` truncates); all theorems that need it carry
explicit range hypotheses. -/
def daysOfCivil (y m d : Nat) : Nat :=
  let y' := if m ≤ 2 then y - 1 else y
  let era := y' / 400
  let yoe := y' % 400
  let mp := if 2 < m then m - 3 else m + 9
  let doy := (153 * mp + 2) / 5 + d - 1
  let doe := yoe * 365 + yoe / 4 - yoe / 100 + doy
  era * 146097 + doe + 60

/-- Year-of-era of a day-of-era (0 to 146096): the quotient step of
Hinnant's `civil_from_days`. -/
def yoeFormula (doe : Nat) : Nat :=
  (doe - doe / 1460 + doe / 36524 - doe / 146096) / 365

/-- First day-of-era of a year-of-era (counting from March 1). -/
def yoeStart (y : Nat) : Nat := 365 * y + y / 4 - y / 100

/-- Balanced-recursion bounded check: `p` holds on `lo, ..., lo + len - 1`.
The fuel only has to exceed the logarithm of `len`, keeping kernel
evaluation shallow. -/
def allInRange (p : Nat → Bool) : Nat → Nat → Nat → Bool
  | 0, _, len => len = 0
  | f + 1, lo, len =>
    if len = 0 then true
    else if len = 1 then p lo
    else
      allInRange p f lo (len / 2) &&
        allInRange p f (lo + len / 2) (len - len / 2)

/-- Correctness of `yoeFormula` at the boundaries of year-of-era `y`. -/
def boundaryOk (y : Nat) : Bool :=
  decide (yoeFormula (yoeStart y) = y) &&
    (if 1 ≤ y then decide (yoeFormula (yoeStart y - 1) = y - 1) else true)

/-- Correctness of the month/day extraction at a day-of-year. -/
def monthOk (doy : Nat) : Bool :=
  let mp := (5 * doy + 2) / 153
  decide (mp ≤ 11) && decide ((153 * mp + 2) / 5 ≤ doy) &&
    decide (doy - (153 * mp + 2) / 5 ≤ 30)

/-- Inverse of `daysOfCivil` (Hinnant's `civil_from_days`, same shift):
day number since 0000-01-01 to (year, month, day).  Meaningful for
`60 ≤ n`. -/
def civilOfDays (n : Nat) : Nat × Nat × Nat :=
  let z := n - 60
  let era := z / 146097
  let doe := z % 146097
  let yoe := yoeFormula doe
  let doy := doe - yoeStart yoe
  let mp := (5 * doy + 2) / 153
  let d := doy - (153 * mp + 2) / 5 + 1
  let m := if mp < 10 then mp + 3 else mp - 9
  let y := yoe + era * 400
  (if m ≤ 2 then y + 1 else y, m, d)

/-- Calendar year of a day number (`Date.prototype.getFullYear` under the
UTC pinning). -/
def yearOf (n : Nat) : Nat := (civilOfDays n).1

/-- Day of week with Sunday = 0 (`Date.prototype.getDay`).  Day 0
(0000-01-01) is a Saturday, like 2000-01-01 (the Gregorian 400-year cycle
is an exact number of weeks). -/
def dayOfWeek (n : Nat) : Nat := (n + 6) % 7

/-- Model of date-fns `startOfWeek(date, .. weekStartsOn: 0 ..)`: the Sunday
on or before the given day. -/
def startOfWeekSunday (n : Nat) : Nat := n - dayOfWeek n

/-- Day number of January 1 of a year. -/
def jan1 (y : Nat) : Nat := daysOfCivil y 1 1

/-- Model of date-fns `getWeekYear` with `weekStartsOn: 0` and
`firstWeekContainsDate: 1` (these are both the explicit options at the
`generateWeeklyRecap` call site and the library defaults at the
`generateGPTSummaries` call sites): the week-numbering year of a day. -/
def weekYearS0 (n : Nat) : Nat :=
  let y := yearOf n
  if startOfWeekSunday (jan1 (y + 1)) ≤ n then y + 1
  else if startOfWeekSunday (jan1 y) ≤ n then y
  else y - 1

/-- Model of date-fns `getWeek` with `weekStartsOn: 0`,
`firstWeekContainsDate: 1` (explicit at line 164 of src/unnamed/part_000,
the library default at lines 271 and 280). -/
def getWeekS0 (n : Nat) : Nat :=
  (startOfWeekSunday n - startOfWeekSunday (jan1 (weekYearS0 n))) / 7 + 1

/-- Decimal digit character of `k % 10`. -/
def digitChar (k : Nat) : Char := Char.ofNat (48 + k % 10)

/-- Numeric value of a decimal digit character. -/
def digitVal (c : Char) : Nat := c.toNat - 48

/-- Four-digit zero-padded decimal rendering (the date-fns `yyyy` format
token for years 0-9999, the only years a `\d{4}` filename token can
produce). -/
def pad4 (n : Nat) : List Char :=
  [digitChar (n / 1000), digitChar (n / 100), digitChar (n / 10), digitChar n]

/-- Two-digit zero-padded decimal rendering (date-fns `MM` / `dd`). -/
def pad2 (n : Nat) : List Char := [digitChar (n / 10), digitChar n]

/-- Rendering of a civil date in the date-fns format `yyyy-MM-dd`. -/
def formatYMD (y m d : Nat) : String :=
  String.mk (pad4 y ++ '-' :: (pad2 m ++ '-' :: pad2 d))

/-- Model of date-fns `format(date, 'yyyy-MM-dd')` on a day number. -/
def formatDayKey (n : Nat) : String :=
  formatYMD (civilOfDays n).1 (civilOfDays n).2.1 (civilOfDays n).2.2

/-- Test that a character list starts with the filename date pattern
`^\d{4}-\d{2}-\d{2}` shared by `groupNotesByYearAndMonth` (line 124),
`groupNotesByWeek` (line 194) and `getDateFromFileName` (line 316) of
src/unnamed/part_000. -/
def dateTokenShape : List Char → Bool
  | a :: b :: c :: d :: '-' :: e :: f :: '-' :: g :: h :: _ =>
    a.isDigit && b.isDigit && c.isDigit && d.isDigit && e.isDigit &&
      f.isDigit && g.isDigit && h.isDigit
  | _ => false

/-- Year, month and day fields of a date token (meaningful under
`dateTokenShape`). -/
def tokenYMD : List Char → Nat × Nat × Nat
  | a :: b :: c :: d :: _ :: e :: f :: _ :: g :: h :: _ =>
    (digitVal a * 1000 + digitVal b * 100 + digitVal c * 10 + digitVal d,
      digitVal e * 10 + digitVal f, digitVal g * 10 + digitVal h)
  | _ => (0, 0, 0)

/-- Model of `new Date(token)` for a ten-character `YYYY-MM-DD` token (the
ECMAScript date-time-string format): months outside 01-12 or days outside
01-31 give an Invalid Date, modelled as `none`; in-range fields give the UTC
day number via `MakeDay`, which normalises day overflow arithmetically (so
`2024-02-31` is three days after `2024-02-28`, i.e. 2024-03-02). -/
def jsDateParse (tok : List Char) : Option Nat :=
  if dateTokenShape tok then
    let y := (tokenYMD tok).1
    let m := (tokenYMD tok).2.1
    let d := (tokenYMD tok).2.2
    if 1 ≤ m ∧ m ≤ 12 ∧ 1 ≤ d ∧ d ≤ 31 then
      some (daysOfCivil y m 1 + (d - 1))
    else none
  else none

/-- Kernel-computable model of `String.prototype.startsWith` /
`file.path.startsWith(folder)`. -/
def jsStartsWith (s pre : String) : Bool := pre.data.isPrefixOf s.data

/-- Model of an Obsidian `TFile` together with its readable content
(`vault.read f` returns `f.content`; the source reads `vault.getFiles()`
once before performing any write). -/
structure NoteFile where
  path : String
  name : String
  extension : String
  content : String
deriving DecidableEq, Repr

/-- File store for outputs: an association list from path to content. -/
abbrev Vault := List (String × String)

/-- Content at a path, if a file exists there
(`vault.getAbstractFileByPath`). -/
def vaultGet : Vault → String → Option String
  | [], _ => none
  | (q, c) :: rest, p => if q = p then some c else vaultGet rest p

/-- Model of the create-or-update branch used by `generateMonthlyRecap`
(lines 110-115) and `generateWeeklyRecap` (lines 180-185): if a file exists
at the path its content is replaced by `vault.modify`, otherwise
`vault.create` makes a new file. -/
def createOrModify (v : Vault) (p c : String) : Vault :=
  if (vaultGet v p).isSome then
    v.map (fun q => if q.1 = p then (q.1, c) else q)
  else v ++ [(p, c)]

/-- Model of a bare `vault.create(path, content)` call, as issued by
`generateGPTSummaries` (line 293) without an existence check.  Modelled from
the spec: the file-store collaborator of spec section 6 offers `createFile`
(create a *new* file) separately from `overwriteFile`; Obsidian's
`Vault.create` rejects a path that already exists, so creation at an
occupied path is an error. -/
def vaultCreate (v : Vault) (p c : String) : Except String Vault :=
  if (vaultGet v p).isSome then Except.error ("File already exists.")
  else Except.ok (v ++ [(p, c)])

/-- Append `f` to the bucket keyed `k`, creating the bucket at the end on
first use — the behaviour of `grouped[key].push(file)` on a JavaScript
object, whose `Object.entries` order is key-insertion order. -/
def insertAppend (k : String) (f : NoteFile) :
    List (String × List NoteFile) → List (String × List NoteFile)
  | [] => [(k, [f])]
  | (k', l) :: rest =>
    if k' = k then (k', l ++ [f]) :: rest else (k', l) :: insertAppend k f rest

/-- Bucket key assigned by `groupNotesByYearAndMonth` (src/unnamed/part_000
lines 121-135): for a name matching `^(\d{4})-(\d{2})-\d{2}` the key is
year dash month, i.e. the first seven characters; otherwise the file is
skipped. -/
def monthKeyOf (name : String) : Option String :=
  if dateTokenShape name.data then some (String.mk (name.data.take 7)) else none

/-- Model of `groupNotesByYearAndMonth` (lines 121-135), processing the
files in order against an accumulator. -/
def groupMonthAux : List NoteFile → List (String × List NoteFile) →
    List (String × List NoteFile)
  | [], acc => acc
  | f :: fs, acc =>
    match monthKeyOf f.name with
    | some k => groupMonthAux fs (insertAppend k f acc)
    | none => groupMonthAux fs acc

/-- Model of `groupNotesByYearAndMonth` (src/unnamed/part_000 lines
121-135). -/
def groupNotesByYearAndMonth (files : List NoteFile) :
    List (String × List NoteFile) :=
  groupMonthAux files []

/-- Week-bucket key of a parsed note date: date-fns
`format(startOfWeek(date, .. weekStartsOn: 0 ..), 'yyyy-MM-dd')` (lines
197-198). -/
def weekKeyOfDay (z : Nat) : String := formatDayKey (startOfWeekSunday z)

/-- Model of `groupNotesByWeek` (src/unnamed/part_000 lines 191-206),
processing the files in order.  A name matching the date pattern whose token
is not a parseable date yields an Invalid Date from `new Date`; date-fns
`format` then throws `RangeError: Invalid time value`, which escapes the
whole grouping call — modelled as `Except.error`. -/
def groupWeekAux : List NoteFile → List (String × List NoteFile) →
    Except String (List (String × List NoteFile))
  | [], acc => Except.ok acc
  | f :: fs, acc =>
    if dateTokenShape f.name.data then
      match jsDateParse (f.name.data.take 10) with
      | some z => groupWeekAux fs (insertAppend (weekKeyOfDay z) f acc)
      | none => Except.error ("Invalid time value")
    else groupWeekAux fs acc

/-- Model of `groupNotesByWeek` (src/unnamed/part_000 lines 191-206). -/
def groupNotesByWeek (files : List NoteFile) :
    Except String (List (String × List NoteFile)) :=
  groupWeekAux files []

/-- Helper for `jsSplitDash`: split the remaining characters at every
dash, the accumulator holding the current piece reversed. -/
def splitOnDashAux : List Char → List Char → List String
  | [], cur => [String.mk cur.reverse]
  | c :: cs, cur =>
    if c = '-' then String.mk cur.reverse :: splitOnDashAux cs []
    else splitOnDashAux cs (c :: cur)

/-- Model of `yearMonth.split('-')`: split at every dash, keeping empty
pieces. -/
def jsSplitDash (s : String) : List String := splitOnDashAux s.data []

/-- Plugin settings record (src/unnamed/part_000 lines 4-19).  The last
field models `gptUserContentPrefix` of the source. -/
structure PluginSettings where
  inputFolder : String
  outputFolder : String
  autoGenerateMonthly : Bool
  weeklyInputFolder : String
  weeklyOutputFolder : String
  autoGenerateWeekly : Bool
  useGPTSummary : Bool
  gptApiKey : String
  gptModel : String
  gptInputFolder : String
  gptOutputFolder : String
  gptSummarizeOnlyPrevious : Bool
  gptSystemContent : String
  gptUserContentPrefixText : String
deriving DecidableEq, Repr

/-- Observable outcome of the single `fetch` to the completion endpoint in
`generateGPTSummary`: a network/parse failure carrying the message of the
caught error, a non-success HTTP status carrying the endpoint's
`error.message`, or a success carrying the `message.content` of each entry
of `data.choices`. -/
inductive GPTOutcome where
  | netError (msg : String)
  | httpError (msg : String)
  | ok (choices : List String)
deriving DecidableEq, Repr

/-- Notice shown when no API key is configured (line 211). -/
def noticeKeyMissing : String :=
  "GPT API key is not set. Please set it in the plugin settings."

/-- Notice shown from the catch-all handler (line 251). -/
def gptErrorNotice (m : String) : String :=
  "Error generating GPT summary: " ++ m

/-- Model of `generateGPTSummary` (src/unnamed/part_000 lines 208-254),
returning the result string and the notices it issued.  The whole body after
the key check sits in a `try`/`catch` whose handler returns the original
`content`, so the function is total: a non-success status throws
`API Error: <message>` into the handler, an empty or missing `choices` list
throws `No summary generated`, and any network or parse error is caught
likewise. -/
def generateGPTSummary (s : PluginSettings) (o : GPTOutcome)
    (content : String) : String × List String :=
  if s.gptApiKey = "" then (content, [noticeKeyMissing])
  else
    match o with
    | GPTOutcome.netError m => (content, [gptErrorNotice m])
    | GPTOutcome.httpError m => (content, [gptErrorNotice ("API Error: " ++ m)])
    | GPTOutcome.ok [] => (content, [gptErrorNotice ("No summary generated")])
    | GPTOutcome.ok (c :: _) => (c, [])

/-- Left-pad a number to two digits (`String(n).padStart(2, '0')`). -/
def padStart2 (n : Nat) : String :=
  if n < 10 then "0" ++ toString n else toString n

/-- Model of `generateMonthlyRecap` (src/unnamed/part_000 lines 85-119):
filter the vault files to the monthly input folder, group by year-month,
and per bucket write the concatenation of the cleaned member contents to
`outputFolder/<year>-<month>.md`, replacing an existing file.  Returns the
resulting vault and the notices issued. -/
def generateMonthlyRecap (s : PluginSettings) (files : List NoteFile)
    (v : Vault) : Vault × List String :=
  let dailyNotes := files.filter
    (fun f => jsStartsWith f.path s.inputFolder && f.extension == "md")
  let groupedNotes := groupNotesByYearAndMonth dailyNotes
  let step := fun (acc : Vault) (kl : String × List NoteFile) =>
    let parts := jsSplitDash kl.1
    let year := parts.getD 0 ""
    let month := parts.getD 1 ""
    let outputFileName := year ++ "-" ++ month ++ ".md"
    let outputFilePath := s.outputFolder ++ "/" ++ outputFileName
    let recapContent := kl.2.foldl
      (fun acc f => acc ++ cleanFileContent f.content ++ "\n\n") ""
    createOrModify acc outputFilePath recapContent
  (groupedNotes.foldl step v, ["Monthly recap generated successfully!"])

/-- Model of `generateWeeklyRecap` (src/unnamed/part_000 lines 149-189):
like the monthly recap but grouped by Sunday-started week, with output name
`<year>-W<week>.md` taken from the reparsed week-start date, and the content
optionally replaced by a GPT summary.  `oracle` gives the endpoint's
response to each user message.  An Invalid Date escaping from the grouping
aborts the operation before any write or notice. -/
def generateWeeklyRecap (s : PluginSettings) (files : List NoteFile)
    (v : Vault) (oracle : String → GPTOutcome) :
    Except String Vault × List String :=
  let dailyNotes := files.filter
    (fun f => jsStartsWith f.path s.weeklyInputFolder && f.extension == "md")
  match groupNotesByWeek dailyNotes with
  | Except.error e => (Except.error e, [])
  | Except.ok groupedNotes =>
    let step := fun (st : Vault × List String) (kl : String × List NoteFile) =>
      let z := (jsDateParse kl.1.data).getD 0
      let year := yearOf z
      let weekNumber := getWeekS0 z
      let outputFileName := toString year ++ "-W" ++ padStart2 weekNumber ++ ".md"
      let outputFilePath := s.weeklyOutputFolder ++ "/" ++ outputFileName
      let recapContent := kl.2.foldl
        (fun acc f => acc ++ cleanFileContent f.content ++ "\n\n") ""
      if s.useGPTSummary then
        let r := generateGPTSummary s
          (oracle (s.gptUserContentPrefixText ++ recapContent)) recapContent
        (createOrModify st.1 outputFilePath r.1, st.2 ++ r.2)
      else (createOrModify st.1 outputFilePath recapContent, st.2)
    let res := groupedNotes.foldl step (v, [])
    (Except.ok res.1, res.2 ++ ["Weekly recaps generated successfully!"])

/-- Model of `getDateFromFileName` (src/unnamed/part_000 lines 315-318).
The source returns `null` for a non-matching name and `new Date(token)`
otherwise; a matching but unparseable token gives an Invalid Date object,
whose `getWeek`/`getFullYear` are `NaN` and therefore fail every equality
test at the only use site, exactly as `null` does after its `continue`
guard — the model folds both exclusions into `none`. -/
def getDateFromFileName (name : String) : Option Nat :=
  if dateTokenShape name.data then jsDateParse (name.data.take 10) else none

/-- Filter applied by `generateGPTSummaries` (lines 277-283): keep a file
iff its filename date has the calendar year and the default-options week
number of the date seven days before now. -/
def gptSelects (nowDay : Nat) (f : NoteFile) : Bool :=
  match getDateFromFileName f.name with
  | none => false
  | some z =>
    yearOf z == yearOf (nowDay - 7) && getWeekS0 z == getWeekS0 (nowDay - 7)

/-- Insertion into a name-sorted list. -/
def insertByName (f : NoteFile) : List NoteFile → List NoteFile
  | [] => [f]
  | g :: gs => if f.name ≤ g.name then f :: g :: gs else g :: insertByName f gs

/-- Model of `inputFiles.sort((a, b) => a.name.localeCompare(b.name))`, with
the locale collation pinned to code-unit order; only the relative order of
the concatenation, never membership, depends on this choice. -/
def sortByName (l : List NoteFile) : List NoteFile := l.foldr insertByName []

/-- Success notice of `generateGPTSummaries` (line 296). -/
def noticeGPTDone : String := "GPT weekly summary generated successfully!"

/-- Model of `generateGPTSummaries` (src/unnamed/part_000 lines 256-297):
sort the summary-input files by name, keep those whose filename date shares
calendar year and week number with `now - 7 days`, concatenate their *raw*
contents, and when nonempty summarize and `vault.create` the result at
`gptOutputFolder/<year>-W<week> Summary.md` — with no existence check, so
an occupied output path makes the create call reject, skipping the final
notice.  `nowDay` is the civil day of `new Date()`. -/
def generateGPTSummaries (s : PluginSettings) (files : List NoteFile)
    (v : Vault) (oracle : String → GPTOutcome) (nowDay : Nat) :
    Except String Vault × List String :=
  let inputFiles := sortByName (files.filter
    (fun f => jsStartsWith f.path s.gptInputFolder && f.extension == "md"))
  let previousWeek := getWeekS0 (nowDay - 7)
  let previousWeekYear := yearOf (nowDay - 7)
  let weeklyContent := (inputFiles.filter (gptSelects nowDay)).foldl
    (fun acc f => acc ++ f.content ++ "\n\n") ""
  if weeklyContent = "" then (Except.ok v, [noticeGPTDone])
  else
    let r := generateGPTSummary s
      (oracle (s.gptUserContentPrefixText ++ weeklyContent)) weeklyContent
    let fileName := toString previousWeekYear ++ "-W" ++ padStart2 previousWeek
      ++ " Summary.md"
    let filePath := s.gptOutputFolder ++ "/" ++ fileName
    match vaultCreate v filePath r.1 with
    | Except.error e => (Except.error e, r.2)
    | Except.ok v2 => (Except.ok v2, r.2 ++ [noticeGPTDone])

/-- The backtick character (used in hypotheses about fence-free text). -/
def backquote : Char := Char.ofNat 96

/-- A complete `calendar-nav` fenced block with body `b`. -/
def calBlock (b : List Char) : List Char :=
  ("```calendar-nav").data ++ b ++ ("```").data

/-- Whether `pat` occurs as a contiguous subsequence of `s`. -/
def containsSeq (pat s : List Char) : Bool := (firstIndexOf pat s).isSome

/-- Whether the anchored frontmatter regex of `cleanFileContent` matches
`s` (see `stripFrontmatter`). -/
def hasFrontmatterMatch (s : List Char) : Bool :=
  ("---\n").data.isPrefixOf s &&
    (firstIndexOf (("\n---\n").data) (s.drop 4)).isSome

/-- Whether matcher `m` fails at every position of `s` (a `/g` replace is
then the identity). -/
def noMatchAnywhere (m : List Char → Option Nat) (s : List Char) : Bool :=
  (List.range (s.length + 1)).all (fun i => (m (s.drop i)).isNone)

/-- Number of positions of `s` at which matcher `m` succeeds. -/
def countMatchPositions (m : List Char → Option Nat) (s : List Char) : Nat :=
  ((List.range (s.length + 1)).filter (fun i => (m (s.drop i)).isSome)).length

/-- The three matchers driving the `/g`-flagged replace steps of
`cleanFileContent` (src/unnamed/part_000 lines 142-144), in call order. -/
def gMatchers : List (List Char → Option Nat) :=
  [headingBlockMatch dailiesHeading, calNavMatch,
    headingBlockMatch dailyLawHeading]

/-- Association-list lookup on grouping results. -/
def lookupKey : List (String × List NoteFile) → String → Option (List NoteFile)
  | [], _ => none
  | (k', l) :: rest, k => if k' = k then some l else lookupKey rest k

/-- Membership of file `f` in the bucket keyed `k` of grouping result
`bs`. -/
def bucketMem (bs : List (String × List NoteFile)) (k : String)
    (f : NoteFile) : Prop :=
  ∃ l, lookupKey bs k = some l ∧ f ∈ l

/-- The week-bucket key `groupNotesByWeek` assigns to a file name, if any:
the name must match the date pattern and its token must parse. -/
def weekKeyOfName (name : String) : Option String :=
  if dateTokenShape name.data then
    (jsDateParse (name.data.take 10)).map weekKeyOfDay
  else none

/-- Example settings, with the folder names used by the concrete runs below
and no API key configured (the `gptApiKey` default). -/
def exSettings : PluginSettings :=
  { inputFolder := "in", outputFolder := "out", autoGenerateMonthly := false,
    weeklyInputFolder := "in", weeklyOutputFolder := "wout",
    autoGenerateWeekly := false, useGPTSummary := false, gptApiKey := "",
    gptModel := "gpt-4o-mini", gptInputFolder := "gin",
    gptOutputFolder := "gout", gptSummarizeOnlyPrevious := true,
    gptSystemContent := "sys", gptUserContentPrefixText := "pre:" }

/-- Example settings with an API key configured. -/
def exSettingsWithKey : PluginSettings := { exSettings with gptApiKey := "k" }

/-- An endpoint oracle that always returns one choice with text `S`. -/
def alwaysSummary : String → GPTOutcome := fun _ => GPTOutcome.ok ["S"]

/-- A file whose name matches the digit pattern but whose token `2024-13-40`
is not a parseable date (month 13). -/
def noteBadDate : NoteFile :=
  { path := "in/2024-13-40 note.md", name := "2024-13-40 note.md",
    extension := "md", content := "X" }

/-- A note dated Sunday 2024-03-10. -/
def note0310 : NoteFile :=
  { path := "in/2024-03-10.md", name := "2024-03-10.md",
    extension := "md", content := "a" }

/-- A note dated Saturday 2024-03-16. -/
def note0316 : NoteFile :=
  { path := "in/2024-03-16.md", name := "2024-03-16.md",
    extension := "md", content := "b" }

/-- A note dated Sunday 2024-03-17. -/
def note0317 : NoteFile :=
  { path := "in/2024-03-17.md", name := "2024-03-17.md",
    extension := "md", content := "c" }

/-- A summary-input note dated Sunday 2024-12-29. -/
def noteDec29 : NoteFile :=
  { path := "gin/2024-12-29 x.md", name := "2024-12-29 x.md",
    extension := "md", content := "DEC" }

/-- A summary-input note dated Monday 2024-12-30. -/
def noteDec30 : NoteFile :=
  { path := "gin/2024-12-30.md", name := "2024-12-30.md",
    extension := "md", content := "D30" }

/-- A summary-input note dated Tuesday 2024-03-12. -/
def noteMar12 : NoteFile :=
  { path := "gin/2024-03-12.md", name := "2024-03-12.md",
    extension := "md", content := "MAR" }

/-- The day number of 2024-01-13 (a Saturday). -/
def exDayJan13 : Nat := daysOfCivil 2024 1 13

/-- The day number of 2025-01-08 (a Wednesday). -/
def exDayJan8 : Nat := daysOfCivil 2025 1 8

/-- The day number of 2024-03-20 (a Wednesday). -/
def exDayMar20 : Nat := daysOfCivil 2024 3 20

/-- C10: month grouping validates only the digit shape of the filename
prefix, never calendar validity — the file named `2024-13-40 note.md` is
keyed `2024-13` by `groupNotesByYearAndMonth`, and `generateMonthlyRecap`
derives the output file `out/2024-13.md` from it, although 13 is not a
month. -/
theorem C10_shape_only_validation :
    monthKeyOf noteBadDate.name = some ("2024-13")
    ∧ groupNotesByYearAndMonth [noteBadDate] = [(("2024-13"), [noteBadDate])]
    ∧ (generateMonthlyRecap exSettings [noteBadDate] []).1 =
        [(("out/2024-13.md"), ("X\n\n"))] :=
  ⟨rfl, rfl, rfl⟩

/-- C3: `generateGPTSummary` never fails the caller — the model is a total
function (the source wraps the whole body after the key check in a
`try`/`catch` returning `content`), and on every failure path (empty
credential, network or parse error, non-success status, empty choice list)
the returned string is the original `content`. -/
theorem C3_summary_fallback (s : PluginSettings) (o : GPTOutcome)
    (content : String)
    (h : s.gptApiKey = "" ∨ (∃ m, o = GPTOutcome.netError m) ∨
      (∃ m, o = GPTOutcome.httpError m) ∨ o = GPTOutcome.ok []) :
    (generateGPTSummary s o content).1 = content := by
  unfold generateGPTSummary
  rcases h with h | ⟨m, rfl⟩ | ⟨m, rfl⟩ | rfl
  · simp [h]
  · by_cases hk : s.gptApiKey = "" <;> simp [hk]
  · by_cases hk : s.gptApiKey = "" <;> simp [hk]
  · by_cases hk : s.gptApiKey = "" <;> simp [hk]

/-- C3 witness: the fallback theorem applied at a non-success status with a
configured key. -/
theorem C3_summary_fallback_witness :
    (exSettingsWithKey.gptApiKey = "" ∨
      (∃ m, GPTOutcome.httpError ("boom") = GPTOutcome.netError m) ∨
      (∃ m, GPTOutcome.httpError ("boom") = GPTOutcome.httpError m) ∨
      GPTOutcome.httpError ("boom") = GPTOutcome.ok [])
    ∧ (generateGPTSummary exSettingsWithKey (GPTOutcome.httpError ("boom"))
        ("text")).1 = ("text") :=
  ⟨Or.inr (Or.inr (Or.inl ⟨_, rfl⟩)),
    C3_summary_fallback exSettingsWithKey _ _
      (Or.inr (Or.inr (Or.inl ⟨_, rfl⟩)))⟩

/-- C2 counterexample: the cleaner is not idempotent.  On the input
consisting of a single leading space followed by a frontmatter-shaped block,
the first application only trims the space, uncovering a leading frontmatter
block that the second application strips. -/
theorem C2_counterexample :
    cleanFileContent (cleanFileContent (" ---\nA\n---\nB")) ≠
      cleanFileContent (" ---\nA\n---\nB") := by decide

/-- C7 counterexample: the block-stripping steps are global (`/g`), not
once-per-call — a single call of `cleanFileContent` on an input containing
two `calendar-nav` fenced blocks removes both (two match positions before,
none after), contradicting "removes at most one occurrence". -/
theorem C7_counterexample :
    countMatchPositions calNavMatch
        (("```calendar-nav a``` mid ```calendar-nav b```").data) = 2
    ∧ cleanFileContent ("```calendar-nav a``` mid ```calendar-nav b```") =
        ("mid")
    ∧ countMatchPositions calNavMatch
        (cleanFileContent
          ("```calendar-nav a``` mid ```calendar-nav b```")).data = 0 := by
  refine ⟨by decide, by decide, by decide⟩

/-- C1 counterexample: the file `2024-13-40 note.md` matches the grouping
pattern (its token is no calendar date), is bucketed by the month grouping
under `2024-13`, and makes the week grouping throw (date-fns `format` on the
Invalid Date), so it lies in a month bucket yet in no week bucket — whether
"valid date token" is read as pattern-valid or calendar-valid, the claimed
partition fails on it. -/
theorem C1_counterexample :
    dateTokenShape noteBadDate.name.data = true
    ∧ groupNotesByYearAndMonth [noteBadDate] = [(("2024-13"), [noteBadDate])]
    ∧ groupNotesByWeek [noteBadDate] = Except.error ("Invalid time value") :=
  ⟨rfl, rfl, rfl⟩

/-- C6 counterexample: with the current date 2024-01-13, the ad-hoc filter
accepts the file dated 2024-12-29 — eleven months after the week
immediately preceding the current date (its Sunday span differs from that of
2024-01-06 = now minus seven days) — because 2024-12-29 has calendar year
2024 and default week number 1; and with the current date 2025-01-08 it
rejects the file dated 2024-12-30 although that date lies in the
immediately preceding Sunday span.  The included file's raw content is
written into the `2024-W01 Summary.md` digest. -/
theorem C6_counterexample :
    gptSelects exDayJan13 noteDec29 = true
    ∧ getDateFromFileName noteDec29.name = some (daysOfCivil 2024 12 29)
    ∧ startOfWeekSunday (daysOfCivil 2024 12 29) ≠
        startOfWeekSunday (exDayJan13 - 7)
    ∧ gptSelects exDayJan8 noteDec30 = false
    ∧ startOfWeekSunday (daysOfCivil 2024 12 30) =
        startOfWeekSunday (exDayJan8 - 7)
    ∧ (generateGPTSummaries exSettings [noteDec29] [] alwaysSummary
        exDayJan13).1 =
        Except.ok [(("gout/2024-W01 Summary.md"), ("DEC\n\n"))] := by
  refine ⟨by decide, by decide, by decide, by decide, by decide, rfl⟩

/-- C9 counterexample: a single `generateGPTSummaries` run with no API key
configured and one eligible file emits two notifications, not exactly one —
the missing-key warning from the nested summarizer and the unconditional
final success notice. -/
theorem C9_counterexample :
    (generateGPTSummaries exSettings [noteDec29] [] alwaysSummary
        exDayJan13).2 = [noticeKeyMissing, noticeGPTDone]
    ∧ (generateGPTSummaries exSettings [noteDec29] [] alwaysSummary
        exDayJan13).2.length = 2 :=
  ⟨rfl, rfl⟩

/-- C4 counterexample: the ad-hoc summary flow does not replace an existing
output file — `generateGPTSummaries` issues a bare `vault.create`, which
rejects an occupied path, so with a file already at
`gout/2024-W01 Summary.md` the operation fails instead of replacing its
content. -/
theorem C4_counterexample :
    (generateGPTSummaries exSettingsWithKey [noteDec29]
        [(("gout/2024-W01 Summary.md"), ("OLD"))] alwaysSummary
        exDayJan13).1 = Except.error ("File already exists.")
    ∧ vaultGet [(("gout/2024-W01 Summary.md"), ("OLD"))]
        ("gout/2024-W01 Summary.md") = some ("OLD") :=
  ⟨rfl, rfl⟩

theorem firstIndexOf_cons_none {pat : List Char} {c : Char} {cs : List Char}
    (h : firstIndexOf pat (c :: cs) = none) : firstIndexOf pat cs = none := by
  unfold firstIndexOf at h
  split at h
  · exact absurd h (by simp)
  · simpa using h

theorem firstIndexOf_drop_none {pat : List Char} :
    ∀ (k : Nat) (s : List Char), firstIndexOf pat s = none →
      firstIndexOf pat (s.drop k) = none := by
  intro k
  induction k with
  | zero => intro s h; simpa using h
  | succ k ih =>
    intro s h
    cases s with
    | nil => simpa using h
    | cons c cs => exact ih cs (firstIndexOf_cons_none h)

theorem containsSeq_of_drop {pat s : List Char} {k : Nat}
    (h : containsSeq pat (s.drop k) = true) : containsSeq pat s = true := by
  by_contra hc
  have hnone : firstIndexOf pat s = none := by
    have := (Bool.not_eq_true _).mp hc
    unfold containsSeq at this
    exact Option.not_isSome_iff_eq_none.mp (by simp [this])
  have := firstIndexOf_drop_none k s hnone
  unfold containsSeq at h
  rw [this] at h
  simp at h

theorem stripFrontmatter_id_of_no_close {s : List Char}
    (h : containsSeq (("\n---\n").data) s = false) :
    stripFrontmatter s = s := by
  have hnone : firstIndexOf (("\n---\n").data) (s.drop 4) = none := by
    by_cases hd : containsSeq (("\n---\n").data) (s.drop 4) = true
    · rw [containsSeq_of_drop hd] at h; cases h
    · have := (Bool.not_eq_true _).mp hd
      unfold containsSeq at this
      exact Option.not_isSome_iff_eq_none.mp (by simp [this])
  unfold stripFrontmatter
  split
  · rw [hnone]
  · rfl

/-- C8: frontmatter stripping is fail-closed — an input that begins with the
`---` delimiter line but contains no closing delimiter sequence anywhere is
left untouched by the frontmatter step (no partial strip), and conversely
the step changes its input only when a closing delimiter sequence exists. -/
theorem C8_frontmatter_fail_closed :
    (∀ s : List Char, ("---\n").data.isPrefixOf s = true →
      containsSeq (("\n---\n").data) s = false → stripFrontmatter s = s)
    ∧ (∀ s : List Char, stripFrontmatter s ≠ s →
      containsSeq (("\n---\n").data) s = true) := by
  constructor
  · intro s _ h2
    exact stripFrontmatter_id_of_no_close h2
  · intro s hne
    by_contra hc
    exact hne (stripFrontmatter_id_of_no_close ((Bool.not_eq_true _).mp hc))

/-- C8 witness: the fail-closed direction applied to the unterminated input
`---\nabc`. -/
theorem C8_fail_closed_witness :
    ("---\n").data.isPrefixOf (("---\nabc").data) = true
    ∧ containsSeq (("\n---\n").data) (("---\nabc").data) = false
    ∧ stripFrontmatter (("---\nabc").data) = ("---\nabc").data :=
  ⟨by decide, by decide,
    C8_frontmatter_fail_closed.1 _ (by decide) (by decide)⟩

theorem vaultGet_map_set (p c : String) :
    ∀ v : Vault,
      vaultGet (v.map (fun q => if q.1 = p then (q.1, c) else q)) p =
        (vaultGet v p).map (fun _ => c) := by
  intro v
  induction v with
  | nil => rfl
  | cons q rest ih =>
    obtain ⟨a, b⟩ := q
    dsimp only [List.map_cons]
    by_cases h : a = p
    · rw [show (if (a, b).1 = p then ((a, b).1, c) else (a, b)) = (a, c) by
        simp [h]]
      simp [vaultGet, h]
    · rw [show (if (a, b).1 = p then ((a, b).1, c) else (a, b)) = (a, b) by
        simp [h]]
      simp [vaultGet, h, ih]

theorem vaultGet_append_new (p c : String) :
    ∀ v : Vault, vaultGet v p = none → vaultGet (v ++ [(p, c)]) p = some c := by
  intro v
  induction v with
  | nil => intro _; simp [vaultGet]
  | cons q rest ih =>
    intro h
    unfold vaultGet at h ⊢
    split at h
    · exact absurd h (by simp)
    · rename_i hq
      simpa [hq] using ih h

/-- C4 amended: the monthly and weekly recap write step has replace
semantics — after `createOrModify` the computed path holds exactly the new
content whether or not a file was already there — while the bare create used
by the ad-hoc summary flow errors on an occupied path and creates only at a
free one. -/
theorem C4_write_semantics_amended :
    (∀ (v : Vault) (p c : String), vaultGet (createOrModify v p c) p = some c)
    ∧ (∀ (v : Vault) (p c : String), (vaultGet v p).isSome = true →
        vaultCreate v p c = Except.error ("File already exists."))
    ∧ (∀ (v : Vault) (p c : String), vaultGet v p = none →
        vaultCreate v p c = Except.ok (v ++ [(p, c)])) := by
  refine ⟨?_, ?_, ?_⟩
  · intro v p c
    unfold createOrModify
    by_cases h : (vaultGet v p).isSome = true
    · rw [if_pos h, vaultGet_map_set]
      obtain ⟨d, hd⟩ := Option.isSome_iff_exists.mp h
      rw [hd]; rfl
    · rw [if_neg h]
      exact vaultGet_append_new p c v (Option.not_isSome_iff_eq_none.mp h)
  · intro v p c h
    unfold vaultCreate
    rw [if_pos h]
  · intro v p c h
    unfold vaultCreate
    rw [if_neg (by simp [h])]

/-- C4 amended witness: both write behaviours at the concrete path `p`
holding `OLD`. -/
theorem C4_amended_witness :
    (vaultGet [(("p"), ("OLD"))] ("p")).isSome = true
    ∧ vaultCreate [(("p"), ("OLD"))] ("p") ("NEW") =
        Except.error ("File already exists.")
    ∧ vaultGet (createOrModify [(("p"), ("OLD"))] ("p") ("NEW")) ("p") =
        some ("NEW") :=
  ⟨by decide, C4_write_semantics_amended.2.1 _ _ ("NEW") (by decide),
    C4_write_semantics_amended.1 _ _ _⟩

theorem gptErrorNotice_ne_done (m : String) : gptErrorNotice m ≠ noticeGPTDone := by
  intro h
  obtain ⟨md⟩ := m
  have h2 := congrArg (fun t : String => t.data.head?) h
  have h3 : (some 'E' : Option Char) = some 'G' := h2
  exact absurd h3 (by decide)

theorem gptSummary_no_done (s : PluginSettings) (o : GPTOutcome) (c : String) :
    noticeGPTDone ∉ (generateGPTSummary s o c).2 := by
  unfold generateGPTSummary
  by_cases hk : s.gptApiKey = ""
  · simp only [if_pos hk]
    intro hmem
    simp only [List.mem_singleton] at hmem
    exact absurd hmem (by decide)
  · simp only [if_neg hk]
    cases o with
    | netError m =>
      intro hmem
      simp only [List.mem_singleton] at hmem
      exact gptErrorNotice_ne_done m hmem.symm
    | httpError m =>
      intro hmem
      simp only [List.mem_singleton] at hmem
      exact gptErrorNotice_ne_done _ hmem.symm
    | ok choices =>
      cases choices with
      | nil =>
        intro hmem
        simp only [List.mem_singleton] at hmem
        exact gptErrorNotice_ne_done _ hmem.symm
      | cons c0 cs => simp

/-- C9 amended: a recap operation that runs to completion ends with its
success notification — for the monthly recap it is the only notification;
for the weekly and ad-hoc flows it is the last one, possibly preceded by
diagnostic notices of the nested summarizer — and an ad-hoc run aborted by
the file-store create emits no success notification at all (and reports no
failure reason of its own). -/
theorem C9_notices_amended :
    (∀ (s : PluginSettings) (files : List NoteFile) (v : Vault),
      (generateMonthlyRecap s files v).2 =
        [("Monthly recap generated successfully!")])
    ∧ (∀ (s : PluginSettings) (files : List NoteFile) (v : Vault)
        (o : String → GPTOutcome) (r : Vault) (n : List String),
        generateWeeklyRecap s files v o = (Except.ok r, n) →
        n.getLast? = some ("Weekly recaps generated successfully!"))
    ∧ (∀ (s : PluginSettings) (files : List NoteFile) (v : Vault)
        (o : String → GPTOutcome) (now : Nat) (r : Vault) (n : List String),
        generateGPTSummaries s files v o now = (Except.ok r, n) →
        n.getLast? = some noticeGPTDone)
    ∧ (∀ (s : PluginSettings) (files : List NoteFile) (v : Vault)
        (o : String → GPTOutcome) (now : Nat) (e : String) (n : List String),
        generateGPTSummaries s files v o now = (Except.error e, n) →
        noticeGPTDone ∉ n) := by
  refine ⟨fun s files v => rfl, ?_, ?_, ?_⟩
  · intro s files v o r n h
    simp only [generateWeeklyRecap] at h
    split at h
    · simp at h
    · rw [Prod.mk.injEq] at h
      rw [← h.2, List.getLast?_concat]
  · intro s files v o now r n h
    simp only [generateGPTSummaries] at h
    split at h
    · rw [Prod.mk.injEq] at h
      rw [← h.2, List.getLast?_singleton]
    · split at h
      · simp at h
      · rw [Prod.mk.injEq] at h
        rw [← h.2, List.getLast?_concat]
  · intro s files v o now e n h
    simp only [generateGPTSummaries] at h
    split at h
    · simp at h
    · split at h
      · rw [Prod.mk.injEq] at h
        rw [← h.2]
        exact gptSummary_no_done _ _ _
      · simp at h

/-- C9 amended witness: the monthly conjunct at a concrete run, and the
ad-hoc conjunct applied to a concrete successful run. -/
theorem C9_amended_witness :
    (generateMonthlyRecap exSettings [note0310] []).2 =
      [("Monthly recap generated successfully!")]
    ∧ (generateGPTSummaries exSettingsWithKey [noteDec29] [] alwaysSummary
        exDayJan13).2.getLast? = some noticeGPTDone :=
  ⟨C9_notices_amended.1 _ _ _,
    C9_notices_amended.2.2.1 exSettingsWithKey [noteDec29] [] alwaysSummary
      exDayJan13 [(("gout/2024-W01 Summary.md"), ("S"))]
      [noticeGPTDone] rfl⟩

theorem noMatchAnywhere_head {m : List Char → Option Nat} {c : Char}
    {cs : List Char} (h : noMatchAnywhere m (c :: cs) = true) :
    m (c :: cs) = none := by
  have h0 := List.all_eq_true.mp h 0 (List.mem_range.mpr (by omega))
  simpa using h0

theorem noMatchAnywhere_tail {m : List Char → Option Nat} {c : Char}
    {cs : List Char} (h : noMatchAnywhere m (c :: cs) = true) :
    noMatchAnywhere m cs = true := by
  apply List.all_eq_true.mpr
  intro i hi
  have hi' : i + 1 ∈ List.range ((c :: cs).length + 1) := by
    rw [List.mem_range] at hi ⊢
    simp only [List.length_cons]
    omega
  have := List.all_eq_true.mp h (i + 1) hi'
  simpa using this

theorem scanReplaceAux_id {m : List Char → Option Nat} :
    ∀ (fuel : Nat) (s : List Char), noMatchAnywhere m s = true →
      scanReplaceAux m fuel s = s := by
  intro fuel
  induction fuel with
  | zero => intro s _; cases s <;> rfl
  | succ f ih =>
    intro s h
    cases s with
    | nil => rfl
    | cons c cs =>
      simp only [scanReplaceAux, noMatchAnywhere_head h]
      exact congrArg _ (ih cs (noMatchAnywhere_tail h))

theorem dropWhile_idem (p : Char → Bool) :
    ∀ l : List Char, List.dropWhile p (List.dropWhile p l) = List.dropWhile p l := by
  intro l
  induction l with
  | nil => rfl
  | cons c cs ih =>
    by_cases h : p c
    · simp [List.dropWhile_cons, h, ih]
    · simp [List.dropWhile_cons, h]

theorem dropWhile_eq_append (p : Char → Bool) :
    ∀ l : List Char, ∃ pre, pre ++ List.dropWhile p l = l := by
  intro l
  induction l with
  | nil => exact ⟨[], rfl⟩
  | cons c cs ih =>
    by_cases h : p c
    · obtain ⟨pre, hpre⟩ := ih
      exact ⟨c :: pre, by simp [List.dropWhile_cons, h, hpre]⟩
    · exact ⟨[], by simp [List.dropWhile_cons, h]⟩

theorem dropWhile_head_false (p : Char → Bool) :
    ∀ (l : List Char) (c : Char), (List.dropWhile p l).head? = some c →
      p c = false := by
  intro l
  induction l with
  | nil => intro c h; cases h
  | cons a as ih =>
    intro c h
    by_cases ha : p a
    · rw [List.dropWhile_cons, if_pos ha] at h
      exact ih c h
    · rw [List.dropWhile_cons, if_neg ha] at h
      cases h
      exact Bool.not_eq_true _ ▸ ha

theorem dropWhile_id_of_head (p : Char → Bool) (l : List Char)
    (h : ∀ c, l.head? = some c → p c = false) : List.dropWhile p l = l := by
  cases l with
  | nil => rfl
  | cons c cs => rw [List.dropWhile_cons, if_neg (by simp [h c rfl])]

theorem jsTrim_idem (s : List Char) : jsTrim (jsTrim s) = jsTrim s := by
  unfold jsTrim
  set p := isJsWhitespace with hp
  set v := List.dropWhile p s with hv
  set u := List.dropWhile p v.reverse with hu
  -- Step A: the final result u.reverse is already left-trimmed: its head is
  -- the last character surviving the right trim, which is the head of v.
  have hA : List.dropWhile p u.reverse = u.reverse := by
    apply dropWhile_id_of_head
    intro c hc
    rw [List.head?_reverse] at hc
    obtain ⟨pre, hpre⟩ := dropWhile_eq_append p v.reverse
    rw [← hu] at hpre
    have hgl : v.reverse.getLast? = some c := by
      rw [← hpre, List.getLast?_append, hc]
      rfl
    rw [List.getLast?_reverse] at hgl
    exact dropWhile_head_false p s c (hv ▸ hgl)
  rw [hA, List.reverse_reverse]
  have hidem : List.dropWhile p u = u := by
    rw [hu]
    exact dropWhile_idem p v.reverse
  rw [hidem]

/-- C2 amended: the cleaner is idempotent on every input whose cleaned form
no longer matches any stripped pattern — no leading frontmatter match and no
position matching the `# Dailies`, `calendar-nav` or `# Daily Law` patterns.
(The unconditional claim fails: stripping or trimming can uncover a new
leading frontmatter block, see the counterexample.) -/
theorem C2_idempotent_amended (x : String)
    (h1 : hasFrontmatterMatch (cleanFileContent x).data = false)
    (h2 : noMatchAnywhere (headingBlockMatch dailiesHeading)
      (cleanFileContent x).data = true)
    (h3 : noMatchAnywhere calNavMatch (cleanFileContent x).data = true)
    (h4 : noMatchAnywhere (headingBlockMatch dailyLawHeading)
      (cleanFileContent x).data = true) :
    cleanFileContent (cleanFileContent x) = cleanFileContent x := by
  have hstrip : stripFrontmatter (cleanFileContent x).data =
      (cleanFileContent x).data := by
    unfold hasFrontmatterMatch at h1
    unfold stripFrontmatter
    by_cases hpre : ("---\n").data.isPrefixOf (cleanFileContent x).data = true
    · rw [if_pos hpre]
      rw [hpre] at h1
      have hnone : firstIndexOf (("\n---\n").data)
          ((cleanFileContent x).data.drop 4) = none := by
        apply Option.not_isSome_iff_eq_none.mp
        simpa using h1
      rw [hnone]
    · rw [if_neg hpre]
  have hs2 : scanReplaceAll (headingBlockMatch dailiesHeading)
      (cleanFileContent x).data = (cleanFileContent x).data :=
    scanReplaceAux_id _ _ h2
  have hs3 : scanReplaceAll calNavMatch (cleanFileContent x).data =
      (cleanFileContent x).data :=
    scanReplaceAux_id _ _ h3
  have hs4 : scanReplaceAll (headingBlockMatch dailyLawHeading)
      (cleanFileContent x).data = (cleanFileContent x).data :=
    scanReplaceAux_id _ _ h4
  have htrim : jsTrim (cleanFileContent x).data = (cleanFileContent x).data := by
    show jsTrim (cleanFileContent x).data = (cleanFileContent x).data
    conv_rhs => rw [cleanFileContent]
    exact jsTrim_idem _
  show cleanFileContent (cleanFileContent x) = cleanFileContent x
  conv_lhs => rw [cleanFileContent]
  rw [hstrip]
  rw [hs2, hs3, hs4, htrim]

/-- C2 amended witness: the conditional idempotence applied to an input
whose cleaned form `hello` matches nothing. -/
theorem C2_amended_witness :
    hasFrontmatterMatch (cleanFileContent ("---\na\n---\nhello")).data = false
    ∧ noMatchAnywhere (headingBlockMatch dailiesHeading)
        (cleanFileContent ("---\na\n---\nhello")).data = true
    ∧ noMatchAnywhere calNavMatch
        (cleanFileContent ("---\na\n---\nhello")).data = true
    ∧ noMatchAnywhere (headingBlockMatch dailyLawHeading)
        (cleanFileContent ("---\na\n---\nhello")).data = true
    ∧ cleanFileContent (cleanFileContent ("---\na\n---\nhello")) =
        cleanFileContent ("---\na\n---\nhello") :=
  ⟨by decide, by decide, by decide, by decide,
    C2_idempotent_amended _ (by decide) (by decide) (by decide) (by decide)⟩

theorem calNavMatch_nontick {c : Char} (h : c ≠ backquote) (r : List Char) :
    calNavMatch (c :: r) = none := by
  unfold calNavMatch
  have hd : ("```calendar-nav").data = backquote :: ("``calendar-nav").data := rfl
  rw [if_neg ?_]
  intro hp
  rw [hd] at hp
  have : backquote = c := by
    have := List.isPrefixOf_iff_prefix.mp hp
    obtain ⟨u, hu⟩ := this
    rw [List.cons_append] at hu
    exact (List.cons.injEq _ _ _ _ ▸ hu).1
  exact h this.symm

theorem firstIndexOf_append_tick :
    ∀ (x r : List Char), (∀ c ∈ x, c ≠ backquote) →
      firstIndexOf (("```").data) (x ++ ((("```").data) ++ r)) = some x.length := by
  intro x
  induction x with
  | nil =>
    intro r _
    have hpre : (("```").data).isPrefixOf
        (backquote :: ((("``").data) ++ r)) = true := by
      have h0 := List.isPrefixOf_iff_prefix.mpr
        (List.prefix_append (("```").data) r)
      rwa [show ("```").data ++ r = backquote :: ((("``").data) ++ r)
        from rfl] at h0
    rw [List.nil_append,
      show ("```").data ++ r = backquote :: ((("``").data) ++ r) from rfl]
    unfold firstIndexOf
    rw [if_pos hpre]
    rfl
  | cons c x' ih =>
    intro r hx
    have hc : c ≠ backquote := hx c (by simp)
    rw [List.cons_append]
    unfold firstIndexOf
    rw [if_neg ?_]
    · rw [ih r (fun d hd => hx d (by simp [hd]))]
      rfl
    · intro hp
      have hd : ("```").data = backquote :: ("``").data := rfl
      rw [hd] at hp
      obtain ⟨u, hu⟩ := List.isPrefixOf_iff_prefix.mp hp
      rw [List.cons_append] at hu
      exact hc ((List.cons.injEq _ _ _ _ ▸ hu).1).symm

theorem calNavMatch_block (b r : List Char) (hb : ∀ c ∈ b, c ≠ backquote) :
    calNavMatch (calBlock b ++ r) = some ((calBlock b).length) := by
  have hshape : calBlock b ++ r =
      ("```calendar-nav").data ++ (b ++ ((("```").data) ++ r)) := by
    simp [calBlock]
  rw [hshape]
  unfold calNavMatch
  rw [if_pos (List.isPrefixOf_iff_prefix.mpr (List.prefix_append _ _))]
  have h15 : (15 : Nat) = (("```calendar-nav").data).length := rfl
  rw [h15, List.drop_left]
  rw [firstIndexOf_append_tick b r hb]
  have hlenb : (calBlock b).length = 15 + b.length + 3 := by
    simp [calBlock]
    omega
  rw [hlenb]
  rfl

theorem scanReplaceAux_fuel {m : List Char → Option Nat} :
    ∀ (f1 f2 : Nat) (s : List Char), s.length ≤ f1 → s.length ≤ f2 →
      scanReplaceAux m f1 s = scanReplaceAux m f2 s := by
  intro f1
  induction f1 with
  | zero =>
    intro f2 s h1 _
    have : s = [] := List.eq_nil_of_length_eq_zero (by omega)
    subst this
    cases f2 <;> rfl
  | succ f ih =>
    intro f2 s h1 h2
    cases s with
    | nil => cases f2 <;> rfl
    | cons c cs =>
      cases f2 with
      | zero => simp at h2
      | succ f2' =>
        simp only [scanReplaceAux]
        cases hm : m (c :: cs) with
        | none =>
          refine congrArg _ (ih f2' cs ?_ ?_) <;> simp at h1 h2 <;> omega
        | some n =>
          refine ih f2' (cs.drop (n - 1)) ?_ ?_ <;>
            simp [List.length_drop] at h1 h2 ⊢ <;> omega

theorem scan_skip_nontick :
    ∀ (t rest : List Char) (fuel : Nat), (∀ c ∈ t, c ≠ backquote) →
      scanReplaceAux calNavMatch (t.length + fuel) (t ++ rest) =
        t ++ scanReplaceAux calNavMatch fuel rest := by
  intro t
  induction t with
  | nil =>
    intro rest fuel _
    simp only [List.length_nil, List.nil_append, Nat.zero_add]
  | cons c t' ih =>
    intro rest fuel ht
    have hc : c ≠ backquote := ht c (by simp)
    rw [List.cons_append]
    rw [show (c :: t').length + fuel = (t'.length + fuel) + 1 by
      simp only [List.length_cons]
      omega]
    simp only [scanReplaceAux, calNavMatch_nontick hc]
    rw [ih rest fuel (fun d hd => ht d (by simp [hd]))]
    rfl

theorem scan_block_head (b rest : List Char) (hb : ∀ c ∈ b, c ≠ backquote)
    (fuel : Nat) :
    scanReplaceAux calNavMatch (fuel + 1) (calBlock b ++ rest) =
      scanReplaceAux calNavMatch fuel rest := by
  have hcons : calBlock b ++ rest =
      backquote :: ((("``calendar-nav").data ++ (b ++ ("```").data)) ++ rest) := by
    simp [calBlock]
    rfl
  have hm : calNavMatch
      (backquote :: ((("``calendar-nav").data ++ (b ++ ("```").data)) ++ rest)) =
      some ((calBlock b).length) := hcons ▸ calNavMatch_block b rest hb
  rw [hcons]
  simp only [scanReplaceAux, hm]
  have hlen : (calBlock b).length - 1 =
      (("``calendar-nav").data ++ (b ++ ("```").data)).length := by
    simp [calBlock]
    try omega
  rw [hlen, List.drop_left]

theorem scan_block_alone (b : List Char) (hb : ∀ c ∈ b, c ≠ backquote)
    (fuel : Nat) : scanReplaceAux calNavMatch (fuel + 1) (calBlock b) = [] := by
  have h := scan_block_head b [] hb fuel
  rw [List.append_nil] at h
  rw [h]
  cases fuel <;> rfl

theorem headingBlockMatch_pos (heading s : List Char) (n : Nat)
    (hh : 1 ≤ heading.length) (h : headingBlockMatch heading s = some n) :
    1 ≤ n := by
  simp only [headingBlockMatch] at h
  split_ifs at h with h1 h2
  injection h with h
  omega

theorem calNavMatch_pos (s : List Char) (n : Nat)
    (h : calNavMatch s = some n) : 1 ≤ n := by
  simp only [calNavMatch] at h
  split_ifs at h with h1
  cases hfi : firstIndexOf (("```").data) (s.drop 15) with
  | none =>
    simp only [hfi] at h
    exact absurd h (by simp)
  | some j =>
    simp only [hfi] at h
    injection h with h
    omega

theorem gMatchers_pos (m : List Char → Option Nat) (hm : m ∈ gMatchers) :
    ∀ (s : List Char) (n : Nat), m s = some n → 1 ≤ n := by
  simp only [gMatchers, List.mem_cons, List.mem_singleton,
    List.not_mem_nil, or_false] at hm
  rcases hm with hm | hm | hm <;> subst hm
  · intro s n h
    exact headingBlockMatch_pos dailiesHeading s n (by decide) h
  · intro s n h
    exact calNavMatch_pos s n h
  · intro s n h
    exact headingBlockMatch_pos dailyLawHeading s n (by decide) h

/-- A region with no match position is emitted unchanged and the scan
continues behind it, with untouched fuel accounting. -/
theorem scan_passes {m : List Char → Option Nat} :
    ∀ (u v : List Char) (fuel : Nat),
      (∀ i, i < u.length → m ((u ++ v).drop i) = none) →
      scanReplaceAux m (u.length + fuel) (u ++ v) =
        u ++ scanReplaceAux m fuel v := by
  intro u
  induction u with
  | nil =>
    intro v fuel _
    simp
  | cons c u2 ih =>
    intro v fuel h
    have h0 : m (c :: (u2 ++ v)) = none := by
      have h00 := h 0 (by simp)
      simpa using h00
    have hrec := ih v fuel (fun i hi => by
      have hnext := h (i + 1) (by simp only [List.length_cons]; omega)
      simpa using hnext)
    simp only [List.cons_append]
    rw [show (c :: u2).length + fuel = (u2.length + fuel) + 1
      from by simp only [List.length_cons]; omega]
    simp only [scanReplaceAux, h0]
    rw [hrec]

/-- A match at the current position is removed whole and the scan resumes
at the text immediately after it. -/
theorem scan_match_head {m : List Char → Option Nat} (v : List Char)
    (n : Nat) (h1 : 1 ≤ n) (hm : m v = some n) :
    scanReplaceAll m v = scanReplaceAll m (v.drop n) := by
  cases v with
  | nil =>
    rw [List.drop_nil]
  | cons c cs =>
    unfold scanReplaceAll
    rw [show ((c :: cs).length) = cs.length + 1 from by simp]
    simp only [scanReplaceAux, hm]
    have hdv : (c :: cs).drop n = cs.drop (n - 1) := by
      cases n with
      | zero => omega
      | succ k => simp [List.drop_succ_cons]
    rw [hdv]
    exact scanReplaceAux_fuel cs.length ((cs.drop (n - 1)).length)
      (cs.drop (n - 1)) (by rw [List.length_drop]; omega) (le_refl _)

/-- A successful `firstIndexOf` splits the list at the reported index. -/
theorem firstIndexOf_decomp (pat : List Char) :
    ∀ (l : List Char) (j : Nat), firstIndexOf pat l = some j →
      l = l.take j ++ pat ++ l.drop (j + pat.length) := by
  intro l
  induction l with
  | nil =>
    intro j h
    unfold firstIndexOf at h
    split_ifs at h with h1
    injection h with h
    subst h
    have hp : pat = [] := by
      have hle := (List.isPrefixOf_iff_prefix.mp h1).length_le
      simpa using hle
    simp [hp]
  | cons c cs ih =>
    intro j h
    unfold firstIndexOf at h
    split_ifs at h with h1
    · injection h with h
      subst h
      obtain ⟨t, ht⟩ := List.isPrefixOf_iff_prefix.mp h1
      rw [List.take_zero, List.nil_append, Nat.zero_add, ← ht,
        List.drop_left]
    · cases hfi : firstIndexOf pat cs with
      | none =>
        rw [hfi] at h
        exact absurd h (by simp)
      | some j2 =>
        rw [hfi] at h
        simp only [Option.map] at h
        injection h with h
        subst h
        have hdec := ih j2 hfi
        rw [show j2 + 1 + pat.length = (j2 + pat.length) + 1 from by omega]
        rw [List.drop_succ_cons, List.take_succ_cons, List.cons_append,
          List.cons_append]
        exact congrArg _ hdec

/-- C7 (corrected): each boilerplate-stripping step of `cleanFileContent` is
a single left-to-right pass per call.  For each of the three `/g`-flagged
block matchers (`# Dailies` checklist, `calendar-nav` fence, `# Daily Law`
checklist): a successful match consumes at least one character; a region
containing no match position passes through unchanged with the scan
continuing behind it; and a match at the current position is removed whole
with the scan resuming exactly at the text after it (`v.drop n`) — so one
call removes every non-overlapping occurrence, however many, while text
already emitted and text inside removed matches is never rescanned, and a
newly formed occurrence spanning a removal site is not matched.  The
anchored frontmatter step instead removes at most one block: it is the
identity, or the input is one leading `---\n … \n---\n` block followed
verbatim by the output. -/
theorem C7_single_pass_amended :
    (∀ m ∈ gMatchers, ∀ (s : List Char) (n : Nat), m s = some n → 1 ≤ n) ∧
    (∀ m ∈ gMatchers, ∀ u v : List Char,
      (∀ i, i < u.length → m ((u ++ v).drop i) = none) →
      scanReplaceAll m (u ++ v) = u ++ scanReplaceAll m v) ∧
    (∀ m ∈ gMatchers, ∀ (v : List Char) (n : Nat), m v = some n →
      scanReplaceAll m v = scanReplaceAll m (v.drop n)) ∧
    (∀ s : List Char, stripFrontmatter s = s ∨
      ∃ mid, s = ("---\n").data ++ mid ++ ("\n---\n").data ++
        stripFrontmatter s) := by
  refine ⟨gMatchers_pos, ?_, ?_, ?_⟩
  · intro m hm u v h
    unfold scanReplaceAll
    rw [List.length_append]
    exact scan_passes u v v.length h
  · intro m hm v n h
    exact scan_match_head v n (gMatchers_pos m hm v n h) h
  · intro s
    by_cases hp : (("---\n").data).isPrefixOf s = true
    · cases hfi : firstIndexOf (("\n---\n").data) (s.drop 4) with
      | none =>
        left
        unfold stripFrontmatter
        rw [if_pos hp, hfi]
      | some j =>
        right
        refine ⟨(s.drop 4).take j, ?_⟩
        have hstrip : stripFrontmatter s = s.drop (4 + j + 5) := by
          unfold stripFrontmatter
          rw [if_pos hp, hfi]
        have hdec := firstIndexOf_decomp (("\n---\n").data) (s.drop 4) j hfi
        obtain ⟨t, ht⟩ := List.isPrefixOf_iff_prefix.mp hp
        have ht4 : s.drop 4 = t := by
          rw [← ht]
          rfl
        have hdd : (s.drop 4).drop (j + (("\n---\n").data).length) =
            s.drop (4 + j + 5) := by
          rw [List.drop_drop,
            show ((("\n---\n").data)).length = 5 from by decide]
          congr 1
        have hdec2 : s.drop 4 = (s.drop 4).take j ++ ((("\n---\n").data) ++
            (s.drop 4).drop (j + (("\n---\n").data).length)) := by
          rw [List.append_assoc] at hdec
          exact hdec
        rw [hstrip, ← hdd, List.append_assoc, List.append_assoc, ← hdec2,
          ht4]
        exact ht.symm
    · left
      unfold stripFrontmatter
      rw [if_neg hp]

/-- C7 amended witness: the pass equations applied at concrete inputs —
the scan removes the leading concrete `calendar-nav` block (19 characters),
passes the non-matching text `m` through, removes the second block, and
returns exactly `m`. -/
theorem C7_amended_witness :
    scanReplaceAll calNavMatch
      (calBlock (("a").data) ++ ((("m").data) ++ calBlock (("b").data))) =
      ("m").data := by
  have hmem : calNavMatch ∈ gMatchers := by simp [gMatchers]
  have h2 := C7_single_pass_amended.2.1 calNavMatch hmem
  have h3 := C7_single_pass_amended.2.2.1 calNavMatch hmem
  have hpass : ∀ i, i < (("m").data).length →
      calNavMatch (((("m").data) ++ calBlock (("b").data)).drop i) = none := by
    intro i hi
    have hi0 : i = 0 := by
      have hl1 : (("m").data).length = 1 := by decide
      omega
    subst hi0
    decide
  rw [h3 (calBlock (("a").data) ++ ((("m").data) ++ calBlock (("b").data)))
      19 (by decide),
    show (calBlock (("a").data) ++ ((("m").data) ++
      calBlock (("b").data))).drop 19 = ("m").data ++ calBlock (("b").data)
      from by decide,
    h2 (("m").data) (calBlock (("b").data)) hpass,
    h3 (calBlock (("b").data)) 19 (by decide),
    show (calBlock (("b").data)).drop 19 = ([] : List Char) from by decide]
  rfl

theorem allInRange_spec (p : Nat → Bool) :
    ∀ (f lo len : Nat), allInRange p f lo len = true →
      ∀ i, i < len → p (lo + i) = true := by
  intro f
  induction f with
  | zero =>
    intro lo len h i hi
    simp only [allInRange] at h
    have : len = 0 := by simpa using h
    omega
  | succ f ih =>
    intro lo len h i hi
    simp only [allInRange] at h
    by_cases h0 : len = 0
    · omega
    · rw [if_neg h0] at h
      by_cases h1 : len = 1
      · rw [if_pos h1] at h
        have hi0 : i = 0 := by omega
        subst hi0
        simpa using h
      · rw [if_neg h1] at h
        simp only [Bool.and_eq_true] at h
        have hsplit := h
        by_cases hlt : i < len / 2
        · exact ih lo (len / 2) hsplit.1 i hlt
        · have hr := ih (lo + len / 2) (len - len / 2) hsplit.2 (i - len / 2)
            (by omega)
          rw [show lo + len / 2 + (i - len / 2) = lo + i by omega] at hr
          exact hr

set_option maxHeartbeats 4000000 in
theorem boundary_check : allInRange boundaryOk 10 0 400 = true := by decide

set_option maxHeartbeats 4000000 in
theorem month_check : allInRange monthOk 10 0 366 = true := by decide

theorem yoeF_step (a : Nat) (h : a < 146096) :
    yoeFormula a ≤ yoeFormula (a + 1) := by
  unfold yoeFormula
  have hnum : a - a / 1460 + a / 36524 - a / 146096 ≤
      (a + 1) - (a + 1) / 1460 + (a + 1) / 36524 - (a + 1) / 146096 := by
    omega
  exact Nat.div_le_div_right hnum

theorem yoeF_mono : ∀ a b : Nat, a ≤ b → b ≤ 146096 →
    yoeFormula a ≤ yoeFormula b := by
  intro a b
  induction b with
  | zero =>
    intro hab _
    have : a = 0 := by omega
    subst this
    exact le_refl _
  | succ b ihb =>
    intro hab hb
    by_cases hcase : a = b + 1
    · subst hcase; exact le_refl _
    · exact le_trans (ihb (by omega) (by omega)) (yoeF_step b (by omega))

theorem yoe_core (doe : Nat) (h : doe < 146097) :
    yoeStart (yoeFormula doe) ≤ doe ∧ yoeFormula doe ≤ 399 ∧
      doe - yoeStart (yoeFormula doe) ≤ 365 := by
  have hspec := allInRange_spec boundaryOk 10 0 400 boundary_check
  have hbd : ∀ y, y < 400 → yoeFormula (yoeStart y) = y ∧
      (1 ≤ y → yoeFormula (yoeStart y - 1) = y - 1) := by
    intro y hy
    have hb := hspec y hy
    rw [Nat.zero_add] at hb
    unfold boundaryOk at hb
    simp only [Bool.and_eq_true] at hb
    have h2 := hb
    refine ⟨by simpa using h2.1, ?_⟩
    intro h1
    have h3 := h2.2
    rw [if_pos h1] at h3
    simpa using h3
  have hYle : yoeFormula doe ≤ 399 := by
    calc yoeFormula doe ≤ yoeFormula 146096 :=
          yoeF_mono doe 146096 (by omega) (by omega)
    _ = 399 := by decide
  have hstart_le : yoeStart (yoeFormula doe) ≤ doe := by
    by_cases hY0 : yoeFormula doe = 0
    · rw [hY0]
      show 365 * 0 + 0 / 4 - 0 / 100 ≤ doe
      omega
    · by_contra hlt
      push_neg at hlt
      have hb := (hbd (yoeFormula doe) (by omega)).2 (by omega)
      have hup : yoeStart (yoeFormula doe) ≤ 145731 := by
        unfold yoeStart
        omega
      have hmono : yoeFormula doe ≤ yoeFormula (yoeStart (yoeFormula doe) - 1) :=
        yoeF_mono _ _ (by omega) (by omega)
      rw [hb] at hmono
      omega
  refine ⟨hstart_le, hYle, ?_⟩
  by_cases htop : yoeFormula doe = 399
  · have h399 : yoeStart 399 = 145731 := by decide
    rw [htop, h399]
    omega
  · by_contra hbig
    push_neg at hbig
    have hnext : yoeStart (yoeFormula doe + 1) ≤ yoeStart (yoeFormula doe) + 366 := by
      unfold yoeStart
      omega
    have hb1 := (hbd (yoeFormula doe + 1) (by omega)).1
    have hmono : yoeFormula (yoeStart (yoeFormula doe + 1)) ≤ yoeFormula doe :=
      yoeF_mono _ _ (by omega) (by omega)
    rw [hb1] at hmono
    omega

set_option maxHeartbeats 2000000 in
theorem civilOfDays_spec (n : Nat) (h60 : 60 ≤ n) :
    daysOfCivil (civilOfDays n).1 (civilOfDays n).2.1 (civilOfDays n).2.2 = n
    ∧ 1 ≤ (civilOfDays n).2.1 ∧ (civilOfDays n).2.1 ≤ 12
    ∧ 1 ≤ (civilOfDays n).2.2 ∧ (civilOfDays n).2.2 ≤ 31 := by
  have hlt : (n - 60) % 146097 < 146097 := Nat.mod_lt _ (by omega)
  have hz := Nat.div_add_mod (n - 60) 146097
  obtain ⟨hc1, hc2, hc3⟩ := yoe_core ((n - 60) % 146097) hlt
  have hmo := allInRange_spec monthOk 10 0 366 month_check
    ((n - 60) % 146097 - yoeStart (yoeFormula ((n - 60) % 146097))) (by omega)
  rw [Nat.zero_add] at hmo
  unfold monthOk at hmo
  simp only [Bool.and_eq_true, decide_eq_true_eq] at hmo
  have hB : yoeStart (yoeFormula ((n - 60) % 146097)) =
      365 * yoeFormula ((n - 60) % 146097) +
        yoeFormula ((n - 60) % 146097) / 4 -
        yoeFormula ((n - 60) % 146097) / 100 := rfl
  unfold civilOfDays daysOfCivil
  dsimp only
  generalize hdoe : (n - 60) % 146097 = doe at *
  generalize hera : (n - 60) / 146097 = era at *
  generalize hY : yoeFormula doe = Y at *
  generalize hBg : yoeStart Y = B at *
  generalize hMP : (5 * (doe - B) + 2) / 153 = MP at *
  generalize hD5 : (153 * MP + 2) / 5 = D5 at *
  have hdiv400 : (Y + era * 400) / 400 = era := by omega
  have hmod400 : (Y + era * 400) % 400 = Y := by omega
  split_ifs
  all_goals try simp only [Nat.add_sub_cancel]
  all_goals try rw [hdiv400]
  all_goals try rw [hmod400]
  all_goals try rw [hD5]
  all_goals omega

theorem daysOfCivil_month_mono (y m d : Nat) (hy1 : 1 ≤ y) (hm1 : 1 ≤ m)
    (hm2 : m ≤ 12) (hd1 : 1 ≤ d) (hd2 : d ≤ 31) :
    daysOfCivil y 1 1 ≤ daysOfCivil y m d ∧
      daysOfCivil y m d < daysOfCivil (y + 1) 1 1 := by
  interval_cases m <;>
    (unfold daysOfCivil; dsimp only; split_ifs <;> omega)

theorem jan1_lower (y : Nat) (h : 10000 ≤ y) :
    3652425 ≤ daysOfCivil y 1 1 := by
  unfold daysOfCivil
  dsimp only
  split_ifs <;> omega

theorem civilOfDays_year0 (n : Nat) (h : (civilOfDays n).1 = 0) :
    3 ≤ (civilOfDays n).2.1 := by
  unfold civilOfDays at h ⊢
  dsimp only at h ⊢
  split_ifs at h ⊢ <;> omega

theorem yearOf_pos (n : Nat) (h : 366 ≤ n) : 1 ≤ yearOf n := by
  by_contra hy
  push_neg at hy
  unfold yearOf at hy
  have hy0 : (civilOfDays n).1 = 0 := by omega
  have hm3 := civilOfDays_year0 n hy0
  have hs := civilOfDays_spec n (by omega)
  obtain ⟨hrt, hm1, hm2, hd1, hd2⟩ := hs
  rw [show (civilOfDays n).1 = 0 from hy0] at hrt
  have hub : daysOfCivil 0 (civilOfDays n).2.1 (civilOfDays n).2.2 ≤ 365 := by
    have h12 := hm2
    interval_cases hmv : (civilOfDays n).2.1 <;>
      (unfold daysOfCivil; dsimp only; split_ifs <;> omega)
  omega

theorem yearOf_le_9999 (n : Nat) (h60 : 60 ≤ n) (h : n ≤ 3652424) :
    yearOf n ≤ 9999 := by
  by_contra hbig
  push_neg at hbig
  unfold yearOf at hbig
  have hs := civilOfDays_spec n h60
  obtain ⟨hrt, hm1, hm2, hd1, hd2⟩ := hs
  have hmono := daysOfCivil_month_mono (civilOfDays n).1 (civilOfDays n).2.1
    (civilOfDays n).2.2 (by omega) hm1 hm2 hd1 hd2
  have hlow := jan1_lower (civilOfDays n).1 (by omega)
  omega

theorem jan1_bracket (n : Nat) (h366 : 366 ≤ n) :
    daysOfCivil (yearOf n) 1 1 ≤ n ∧ n < daysOfCivil (yearOf n + 1) 1 1 := by
  have hs := civilOfDays_spec n (by omega)
  obtain ⟨hrt, hm1, hm2, hd1, hd2⟩ := hs
  have hmono := daysOfCivil_month_mono (civilOfDays n).1 (civilOfDays n).2.1
    (civilOfDays n).2.2 (yearOf_pos n h366) hm1 hm2 hd1 hd2
  unfold yearOf
  omega

theorem jan1_step (y : Nat) (h : 1 ≤ y) :
    daysOfCivil y 1 1 + 365 ≤ daysOfCivil (y + 1) 1 1 ∧
      daysOfCivil (y + 1) 1 1 ≤ daysOfCivil y 1 1 + 366 := by
  unfold daysOfCivil
  dsimp only
  split_ifs <;> omega

theorem jan1_mono : ∀ y2 y1 : Nat, 1 ≤ y1 → y1 ≤ y2 →
    daysOfCivil y1 1 1 ≤ daysOfCivil y2 1 1 := by
  intro y2
  induction y2 with
  | zero => intro y1 h1 h2; omega
  | succ b ihb =>
    intro y1 h1 h2
    by_cases hcase : y1 = b + 1
    · subst hcase; exact le_refl _
    · have hb1 : 1 ≤ b := by omega
      exact le_trans (ihb y1 h1 (by omega)) (by have := jan1_step b hb1; omega)

theorem digitChar_toNat (k : Nat) : (digitChar k).toNat = 48 + k % 10 := by
  show (Char.ofNat (48 + k % 10)).toNat = 48 + k % 10
  have h : k % 10 < 10 := Nat.mod_lt _ (by omega)
  generalize k % 10 = r at *
  interval_cases r <;> rfl

theorem digitChar_inj {a b : Nat} (h : digitChar a = digitChar b) :
    a % 10 = b % 10 := by
  have h2 := congrArg Char.toNat h
  rw [digitChar_toNat, digitChar_toNat] at h2
  omega

theorem formatYMD_inj {y1 m1 d1 y2 m2 d2 : Nat}
    (hy1 : y1 < 10000) (hy2 : y2 < 10000) (hm1 : m1 < 100) (hm2 : m2 < 100)
    (hd1 : d1 < 100) (hd2 : d2 < 100)
    (h : formatYMD y1 m1 d1 = formatYMD y2 m2 d2) :
    y1 = y2 ∧ m1 = m2 ∧ d1 = d2 := by
  unfold formatYMD pad4 pad2 at h
  injection h with h
  simp only [List.cons_append, List.nil_append] at h
  injection h with e1 h
  injection h with e2 h
  injection h with e3 h
  injection h with e4 h
  injection h with e0 h
  injection h with e5 h
  injection h with e6 h
  injection h with e0b h
  injection h with e7 h
  injection h with e8 h
  have d1 := digitChar_inj e1
  have d2 := digitChar_inj e2
  have d3 := digitChar_inj e3
  have d4 := digitChar_inj e4
  have d5 := digitChar_inj e5
  have d6 := digitChar_inj e6
  have d7 := digitChar_inj e7
  have d8 := digitChar_inj e8
  refine ⟨by omega, by omega, by omega⟩

theorem formatDayKey_inj {a b : Nat} (ha : 60 ≤ a) (hb : 60 ≤ b)
    (ha2 : a ≤ 3652424) (hb2 : b ≤ 3652424)
    (h : formatDayKey a = formatDayKey b) : a = b := by
  unfold formatDayKey at h
  have hsa := civilOfDays_spec a ha
  have hsb := civilOfDays_spec b hb
  have hya := yearOf_le_9999 a ha ha2
  have hyb := yearOf_le_9999 b hb hb2
  unfold yearOf at hya hyb
  obtain ⟨y_eq, m_eq, d_eq⟩ := formatYMD_inj (by omega) (by omega) (by omega)
    (by omega) (by omega) (by omega) h
  have hra := hsa.1
  have hrb := hsb.1
  rw [y_eq, m_eq, d_eq] at hra
  omega

/-- C5: week bucketing follows the fixed Sunday-start convention — the
notes dated 2024-03-10 (Sunday) and 2024-03-16 (Saturday) land in the same
week bucket of `groupNotesByWeek` and the note dated 2024-03-17 (next
Sunday) in a different one; and in general two parsed note dates (within
years 1-9999, the full range of real filename tokens) receive the same week
key iff they lie in one Sunday-to-Saturday span. -/
theorem C5_week_bucketing :
    (groupNotesByWeek [note0310, note0316, note0317] =
      Except.ok [(("2024-03-10"), [note0310, note0316]),
        (("2024-03-17"), [note0317])])
    ∧ (∀ (n1 n2 : List Char) (z1 z2 : Nat),
        jsDateParse n1 = some z1 → jsDateParse n2 = some z2 →
        366 ≤ z1 → z1 ≤ 3652424 → 366 ≤ z2 → z2 ≤ 3652424 →
        (weekKeyOfDay z1 = weekKeyOfDay z2 ↔
          ∃ s0, dayOfWeek s0 = 0 ∧ s0 ≤ z1 ∧ z1 < s0 + 7 ∧
            s0 ≤ z2 ∧ z2 < s0 + 7)) := by
  constructor
  · rfl
  · intro n1 n2 z1 z2 _ _ h1l h1u h2l h2u
    unfold weekKeyOfDay
    constructor
    · intro hk
      have hbr1 : startOfWeekSunday z1 = z1 - (z1 + 6) % 7 := rfl
      have hbr2 : startOfWeekSunday z2 = z2 - (z2 + 6) % 7 := rfl
      have hbr3 : dayOfWeek (startOfWeekSunday z1) =
          (startOfWeekSunday z1 + 6) % 7 := rfl
      have hsow : startOfWeekSunday z1 = startOfWeekSunday z2 := by
        apply formatDayKey_inj ?_ ?_ ?_ ?_ hk
        all_goals omega
      refine ⟨startOfWeekSunday z1, ?_, ?_, ?_, ?_, ?_⟩ <;> omega
    · rintro ⟨s0, hs0, hb1, hb2, hb3, hb4⟩
      have hbr0 : dayOfWeek s0 = (s0 + 6) % 7 := rfl
      have hbr1 : startOfWeekSunday z1 = z1 - (z1 + 6) % 7 := rfl
      have hbr2 : startOfWeekSunday z2 = z2 - (z2 + 6) % 7 := rfl
      have hsow : startOfWeekSunday z1 = startOfWeekSunday z2 := by omega
      rw [hsow]

/-- C5 witness: the general same-key-iff-same-span equivalence applied to
the parsed dates 2024-03-10 and 2024-03-16. -/
theorem C5_week_bucketing_witness :
    jsDateParse (("2024-03-10").data) = some 739320
    ∧ jsDateParse (("2024-03-16").data) = some 739326
    ∧ 366 ≤ 739320 ∧ 739320 ≤ 3652424 ∧ 366 ≤ 739326 ∧ 739326 ≤ 3652424
    ∧ (weekKeyOfDay 739320 = weekKeyOfDay 739326 ↔
        ∃ s0, dayOfWeek s0 = 0 ∧ s0 ≤ 739320 ∧ 739320 < s0 + 7 ∧
          s0 ≤ 739326 ∧ 739326 < s0 + 7) :=
  ⟨by decide, by decide, by decide, by decide, by decide, by decide,
    C5_week_bucketing.2 (("2024-03-10").data) (("2024-03-16").data) _ _
      (by decide) (by decide) (by decide) (by decide) (by decide) (by decide)⟩

/-- C6 amended: the ad-hoc filter keeps exactly the files whose (calendar
year, default week number) pair equals that of `now - 7` days; whenever the
week-numbering years of both dates coincide with their calendar years (no
year-boundary straddle) this is equivalent to lying in the Sunday-aligned
week immediately preceding the current date — around year boundaries the two
notions disagree, see the counterexample. -/
theorem C6_filter_amended (nowDay z : Nat) (f : NoteFile)
    (hparse : getDateFromFileName f.name = some z)
    (hz : 366 ≤ z) (hzU : z ≤ 3652424)
    (hn : 373 ≤ nowDay) (hnU : nowDay ≤ 3652431)
    (h1 : weekYearS0 z = yearOf z)
    (h2 : weekYearS0 (nowDay - 7) = yearOf (nowDay - 7)) :
    gptSelects nowDay f = true ↔
      startOfWeekSunday z = startOfWeekSunday (nowDay - 7) := by
  have hzp : 366 ≤ nowDay - 7 := by omega
  have hzpU : nowDay - 7 ≤ 3652424 := by omega
  have hja : jan1 (yearOf z) ≤ z ∧ z < jan1 (yearOf z + 1) :=
    jan1_bracket z hz
  have hjb : jan1 (yearOf (nowDay - 7)) ≤ nowDay - 7 ∧
      nowDay - 7 < jan1 (yearOf (nowDay - 7) + 1) :=
    jan1_bracket (nowDay - 7) hzp
  have hpa := yearOf_pos z hz
  have hpb := yearOf_pos (nowDay - 7) hzp
  have hga : getWeekS0 z = (startOfWeekSunday z -
      startOfWeekSunday (jan1 (yearOf z))) / 7 + 1 := by
    unfold getWeekS0
    rw [h1]
  have hgb : getWeekS0 (nowDay - 7) = (startOfWeekSunday (nowDay - 7) -
      startOfWeekSunday (jan1 (yearOf (nowDay - 7)))) / 7 + 1 := by
    unfold getWeekS0
    rw [h2]
  have b1 : startOfWeekSunday z = z - (z + 6) % 7 := rfl
  have b2 : startOfWeekSunday (nowDay - 7) =
      (nowDay - 7) - ((nowDay - 7) + 6) % 7 := rfl
  have b3 : startOfWeekSunday (jan1 (yearOf z)) =
      jan1 (yearOf z) - (jan1 (yearOf z) + 6) % 7 := rfl
  have b4 : startOfWeekSunday (jan1 (yearOf (nowDay - 7))) =
      jan1 (yearOf (nowDay - 7)) - (jan1 (yearOf (nowDay - 7)) + 6) % 7 := rfl
  unfold gptSelects
  rw [hparse]
  show (yearOf z == yearOf (nowDay - 7) &&
      getWeekS0 z == getWeekS0 (nowDay - 7)) = true ↔ _
  rw [Bool.and_eq_true, beq_iff_eq, beq_iff_eq]
  constructor
  · rintro ⟨hyy, hww⟩
    rw [hyy] at hga b3 hja
    rw [hga, hgb] at hww
    rw [b1, b2, b4] at hww
    rw [b1, b2]
    omega
  · intro hsow
    have hsow2 : z - (z + 6) % 7 = (nowDay - 7) - ((nowDay - 7) + 6) % 7 := by
      rw [← b1, ← b2]
      exact hsow
    have hyy : yearOf z = yearOf (nowDay - 7) := by
      rcases Nat.lt_trichotomy (yearOf z) (yearOf (nowDay - 7)) with hlt | heq | hgt
      · exfalso
        have hm : jan1 (yearOf z + 1) ≤ jan1 (yearOf (nowDay - 7)) :=
          jan1_mono (yearOf (nowDay - 7)) (yearOf z + 1) (by omega) (by omega)
        have bj : startOfWeekSunday (jan1 (yearOf z + 1)) =
            jan1 (yearOf z + 1) - (jan1 (yearOf z + 1) + 6) % 7 := rfl
        have hcond : startOfWeekSunday (jan1 (yearOf z + 1)) ≤ z := by
          rw [bj]
          omega
        unfold weekYearS0 at h1
        dsimp only at h1
        rw [if_pos hcond] at h1
        omega
      · exact heq
      · exfalso
        have hm : jan1 (yearOf (nowDay - 7) + 1) ≤ jan1 (yearOf z) :=
          jan1_mono (yearOf z) (yearOf (nowDay - 7) + 1) (by omega) (by omega)
        have bj : startOfWeekSunday (jan1 (yearOf (nowDay - 7) + 1)) =
            jan1 (yearOf (nowDay - 7) + 1) -
              (jan1 (yearOf (nowDay - 7) + 1) + 6) % 7 := rfl
        have hcond : startOfWeekSunday (jan1 (yearOf (nowDay - 7) + 1)) ≤
            nowDay - 7 := by
          rw [bj]
          omega
        unfold weekYearS0 at h2
        dsimp only at h2
        rw [if_pos hcond] at h2
        omega
    refine ⟨hyy, ?_⟩
    rw [hga, hgb, hyy, hsow]

/-- C6 amended witness: the equivalence applied mid-year — current date
2024-03-20, note dated 2024-03-12, previous-week date 2024-03-13. -/
theorem C6_amended_witness :
    getDateFromFileName noteMar12.name = some 739322
    ∧ 366 ≤ 739322 ∧ 739322 ≤ 3652424
    ∧ 373 ≤ exDayMar20 ∧ exDayMar20 ≤ 3652431
    ∧ weekYearS0 739322 = yearOf 739322
    ∧ weekYearS0 (exDayMar20 - 7) = yearOf (exDayMar20 - 7)
    ∧ (gptSelects exDayMar20 noteMar12 = true ↔
        startOfWeekSunday 739322 = startOfWeekSunday (exDayMar20 - 7)) :=
  ⟨by decide, by decide, by decide, by decide, by decide, by decide, by decide,
    C6_filter_amended exDayMar20 739322 noteMar12 (by decide) (by decide)
      (by decide) (by decide) (by decide) (by decide) (by decide)⟩

/-- The empty grouping has no bucket members. -/
theorem bucketMem_nil (k : String) (f : NoteFile) : ¬ bucketMem [] k f := by
  rintro ⟨l, hl, -⟩
  simp [lookupKey] at hl

/-- Lookup after `insertAppend`: the inserted key now maps to its previous
bucket (empty on first use) with `f` appended; other keys are unchanged. -/
theorem lookupKey_insertAppend (bs : List (String × List NoteFile))
    (k k' : String) (f : NoteFile) :
    lookupKey (insertAppend k f bs) k' =
      if k' = k then some (((lookupKey bs k).getD []) ++ [f])
      else lookupKey bs k' := by
  induction bs with
  | nil =>
    rcases eq_or_ne k' k with h | h
    · subst h
      simp [insertAppend, lookupKey]
    · simp [insertAppend, lookupKey, h, Ne.symm h]
  | cons p rest ih =>
    obtain ⟨k0, l⟩ := p
    by_cases h0 : k0 = k
    · subst h0
      rcases eq_or_ne k' k0 with h1 | h1
      · subst h1
        simp [insertAppend, lookupKey]
      · simp [insertAppend, lookupKey, h1, Ne.symm h1]
    · rcases eq_or_ne k' k0 with h1 | h1
      · subst h1
        simp [insertAppend, lookupKey, h0, Ne.symm h0]
      · simp [insertAppend, lookupKey, h0, h1, Ne.symm h1, ih]

/-- Membership after `insertAppend`: the inserted file under the inserted
key, or any previous member under its previous key. -/
theorem bucketMem_insertAppend (bs : List (String × List NoteFile))
    (k k' : String) (f g : NoteFile) :
    bucketMem (insertAppend k f bs) k' g ↔
      (k' = k ∧ g = f) ∨ bucketMem bs k' g := by
  unfold bucketMem
  rw [lookupKey_insertAppend]
  rcases eq_or_ne k' k with h | h
  · subst h
    rw [if_pos rfl]
    constructor
    · rintro ⟨l, hl, hg⟩
      injection hl with hl
      subst hl
      rcases List.mem_append.mp hg with h1 | h1
      · right
        cases hlk : lookupKey bs k' with
        | none =>
          rw [hlk] at h1
          simp at h1
        | some l0 =>
          rw [hlk] at h1
          exact ⟨l0, rfl, h1⟩
      · left
        simp only [List.mem_singleton] at h1
        exact ⟨rfl, h1⟩
    · rintro (⟨-, hg⟩ | ⟨l, hl, hg⟩)
      · subst hg
        exact ⟨_, rfl, by simp⟩
      · rw [hl]
        exact ⟨_, rfl, by simp [hg]⟩
  · rw [if_neg h]
    constructor
    · exact fun hb => Or.inr hb
    · rintro (⟨hk, -⟩ | hb)
      · exact absurd hk h
      · exact hb

/-- Bucket membership in the result of `groupMonthAux`: from the
accumulator, or from a processed file under its month key. -/
theorem groupMonthAux_mem (files : List NoteFile) (k : String)
    (g : NoteFile) :
    ∀ acc, bucketMem (groupMonthAux files acc) k g ↔
      bucketMem acc k g ∨ (g ∈ files ∧ monthKeyOf g.name = some k) := by
  induction files with
  | nil =>
    intro acc
    simp [groupMonthAux]
  | cons f fs ih =>
    intro acc
    cases hmk : monthKeyOf f.name with
    | some k0 =>
      have hstep : groupMonthAux (f :: fs) acc =
          groupMonthAux fs (insertAppend k0 f acc) := by
        simp only [groupMonthAux, hmk]
      rw [hstep, ih, bucketMem_insertAppend]
      constructor
      · rintro ((⟨hk, hg⟩ | hb) | ⟨hmem, hkey⟩)
        · subst hg
          exact Or.inr ⟨List.mem_cons_self _ _, by rw [hmk, hk]⟩
        · exact Or.inl hb
        · exact Or.inr ⟨List.mem_cons_of_mem _ hmem, hkey⟩
      · rintro (hb | ⟨hmem, hkey⟩)
        · exact Or.inl (Or.inr hb)
        · rcases List.mem_cons.mp hmem with hg | hg
          · subst hg
            rw [hmk] at hkey
            injection hkey with hkey
            exact Or.inl (Or.inl ⟨hkey.symm, rfl⟩)
          · exact Or.inr ⟨hg, hkey⟩
    | none =>
      have hstep : groupMonthAux (f :: fs) acc = groupMonthAux fs acc := by
        simp only [groupMonthAux, hmk]
      rw [hstep, ih]
      constructor
      · rintro (hb | ⟨hmem, hkey⟩)
        · exact Or.inl hb
        · exact Or.inr ⟨List.mem_cons_of_mem _ hmem, hkey⟩
      · rintro (hb | ⟨hmem, hkey⟩)
        · exact Or.inl hb
        · rcases List.mem_cons.mp hmem with hg | hg
          · subst hg
            rw [hmk] at hkey
            exact absurd hkey (by simp)
          · exact Or.inr ⟨hg, hkey⟩

/-- When `groupWeekAux` returns `ok`, every processed pattern-matching
file name parsed successfully. -/
theorem groupWeekAux_ok_parses (files : List NoteFile) :
    ∀ acc bs, groupWeekAux files acc = Except.ok bs →
      ∀ g ∈ files, dateTokenShape g.name.data = true →
        (jsDateParse (g.name.data.take 10)).isSome = true := by
  induction files with
  | nil =>
    intro acc bs hok g hg hsh
    exact absurd hg (List.not_mem_nil g)
  | cons f fs ih =>
    intro acc bs hok g hg hsh
    by_cases hshape : dateTokenShape f.name.data = true
    · cases hparse : jsDateParse (f.name.data.take 10) with
      | none =>
        have hstep : groupWeekAux (f :: fs) acc =
            Except.error ("Invalid time value") := by
          rw [groupWeekAux.eq_def]
          simp [hshape, hparse]
        rw [hstep] at hok
        exact absurd hok (by simp)
      | some z =>
        have hstep : groupWeekAux (f :: fs) acc =
            groupWeekAux fs (insertAppend (weekKeyOfDay z) f acc) := by
          rw [groupWeekAux.eq_def]
          simp [hshape, hparse]
        rw [hstep] at hok
        rcases List.mem_cons.mp hg with hgf | hgf
        · subst hgf
          rw [hparse]
          rfl
        · exact ih _ _ hok g hgf hsh
    · have hstep : groupWeekAux (f :: fs) acc = groupWeekAux fs acc := by
        rw [groupWeekAux.eq_def]
        simp [hshape]
      rw [hstep] at hok
      rcases List.mem_cons.mp hg with hgf | hgf
      · subst hgf
        exact absurd hsh hshape
      · exact ih _ _ hok g hgf hsh

/-- Bucket membership in an `ok` result of `groupWeekAux`: from the
accumulator, or from a processed file under its week key. -/
theorem groupWeekAux_ok_mem (files : List NoteFile) :
    ∀ acc bs, groupWeekAux files acc = Except.ok bs →
      ∀ (k : String) (g : NoteFile),
      bucketMem bs k g ↔
        bucketMem acc k g ∨ (g ∈ files ∧ weekKeyOfName g.name = some k) := by
  induction files with
  | nil =>
    intro acc bs hok k g
    unfold groupWeekAux at hok
    injection hok with hok
    subst hok
    simp
  | cons f fs ih =>
    intro acc bs hok k g
    by_cases hshape : dateTokenShape f.name.data = true
    · cases hparse : jsDateParse (f.name.data.take 10) with
      | none =>
        have hstep : groupWeekAux (f :: fs) acc =
            Except.error ("Invalid time value") := by
          rw [groupWeekAux.eq_def]
          simp [hshape, hparse]
        rw [hstep] at hok
        exact absurd hok (by simp)
      | some z =>
        have hstep : groupWeekAux (f :: fs) acc =
            groupWeekAux fs (insertAppend (weekKeyOfDay z) f acc) := by
          rw [groupWeekAux.eq_def]
          simp [hshape, hparse]
        rw [hstep] at hok
        rw [ih _ _ hok k g, bucketMem_insertAppend]
        have hwk : weekKeyOfName f.name = some (weekKeyOfDay z) := by
          unfold weekKeyOfName
          rw [if_pos hshape, hparse]
          rfl
        constructor
        · rintro ((⟨hk, hg⟩ | hb) | ⟨hmem, hkey⟩)
          · subst hg
            exact Or.inr ⟨List.mem_cons_self _ _, by rw [hwk, hk]⟩
          · exact Or.inl hb
          · exact Or.inr ⟨List.mem_cons_of_mem _ hmem, hkey⟩
        · rintro (hb | ⟨hmem, hkey⟩)
          · exact Or.inl (Or.inr hb)
          · rcases List.mem_cons.mp hmem with hg | hg
            · subst hg
              rw [hwk] at hkey
              injection hkey with hkey
              exact Or.inl (Or.inl ⟨hkey.symm, rfl⟩)
            · exact Or.inr ⟨hg, hkey⟩
    · have hstep : groupWeekAux (f :: fs) acc = groupWeekAux fs acc := by
        rw [groupWeekAux.eq_def]
        simp [hshape]
      rw [hstep] at hok
      rw [ih _ _ hok k g]
      have hwk : weekKeyOfName f.name = none := by
        unfold weekKeyOfName
        rw [if_neg hshape]
      constructor
      · rintro (hb | ⟨hmem, hkey⟩)
        · exact Or.inl hb
        · exact Or.inr ⟨List.mem_cons_of_mem _ hmem, hkey⟩
      · rintro (hb | ⟨hmem, hkey⟩)
        · exact Or.inl hb
        · rcases List.mem_cons.mp hmem with hg | hg
          · subst hg
            rw [hwk] at hkey
            exact absurd hkey (by simp)
          · exact Or.inr ⟨hg, hkey⟩

/-- C1 (corrected): a file whose name matches the `^\d{4}-\d{2}-\d{2}`
pattern occupies exactly one bucket of the month grouping, and exactly one
bucket of the week grouping whenever the week grouping returns at all
(`Except.ok`); a file whose name does not match occupies no bucket of
either grouping.  (When some pattern-matching token in the list fails to
parse as a JS date, `groupNotesByWeek` instead throws and produces no
buckets — the C1 counterexample.) -/
theorem C1_partition_amended (files : List NoteFile) (f : NoteFile)
    (hf : f ∈ files) :
    (dateTokenShape f.name.data = true →
      (∃! k, bucketMem (groupNotesByYearAndMonth files) k f) ∧
      ∀ bs, groupNotesByWeek files = Except.ok bs →
        ∃! k, bucketMem bs k f) ∧
    (dateTokenShape f.name.data = false →
      (∀ k, ¬ bucketMem (groupNotesByYearAndMonth files) k f) ∧
      ∀ bs, groupNotesByWeek files = Except.ok bs →
        ∀ k, ¬ bucketMem bs k f) := by
  constructor
  · intro hshape
    constructor
    · have hmk : monthKeyOf f.name = some (String.mk (f.name.data.take 7)) := by
        unfold monthKeyOf
        rw [if_pos hshape]
      refine ⟨String.mk (f.name.data.take 7), ?_, ?_⟩
      · show bucketMem (groupNotesByYearAndMonth files)
          (String.mk (f.name.data.take 7)) f
        unfold groupNotesByYearAndMonth
        rw [groupMonthAux_mem]
        exact Or.inr ⟨hf, hmk⟩
      · intro k hk
        have hk2 : bucketMem (groupNotesByYearAndMonth files) k f := hk
        unfold groupNotesByYearAndMonth at hk2
        rw [groupMonthAux_mem] at hk2
        rcases hk2 with hb | ⟨-, hkey⟩
        · exact absurd hb (bucketMem_nil _ _)
        · rw [hmk] at hkey
          injection hkey with h
          exact h.symm
    · intro bs hok
      have hps := groupWeekAux_ok_parses files [] bs hok f hf hshape
      cases hparse : jsDateParse (f.name.data.take 10) with
      | none =>
        rw [hparse] at hps
        exact absurd hps (by simp)
      | some z =>
        have hwk : weekKeyOfName f.name = some (weekKeyOfDay z) := by
          unfold weekKeyOfName
          rw [if_pos hshape, hparse]
          rfl
        refine ⟨weekKeyOfDay z, ?_, ?_⟩
        · show bucketMem bs (weekKeyOfDay z) f
          rw [groupWeekAux_ok_mem files [] bs hok]
          exact Or.inr ⟨hf, hwk⟩
        · intro k hk
          have hk2 : bucketMem bs k f := hk
          rw [groupWeekAux_ok_mem files [] bs hok] at hk2
          rcases hk2 with hb | ⟨-, hkey⟩
          · exact absurd hb (bucketMem_nil _ _)
          · rw [hwk] at hkey
            injection hkey with h
            exact h.symm
  · intro hshape
    have hsf : ¬ dateTokenShape f.name.data = true := by
      rw [hshape]
      exact Bool.false_ne_true
    constructor
    · intro k hb
      unfold groupNotesByYearAndMonth at hb
      rw [groupMonthAux_mem] at hb
      rcases hb with hb | ⟨-, hkey⟩
      · exact bucketMem_nil _ _ hb
      · have hmk : monthKeyOf f.name = none := by
          unfold monthKeyOf
          rw [if_neg hsf]
        rw [hmk] at hkey
        exact absurd hkey (by simp)
    · intro bs hok k hb
      rw [groupWeekAux_ok_mem files [] bs hok] at hb
      rcases hb with hb | ⟨-, hkey⟩
      · exact bucketMem_nil _ _ hb
      · have hwk : weekKeyOfName f.name = none := by
          unfold weekKeyOfName
          rw [if_neg hsf]
        rw [hwk] at hkey
        exact absurd hkey (by simp)

/-- C1 amended witness: in the two-file list of the notes dated 2024-03-10
and 2024-03-16, the first note occupies exactly one month bucket and, for
any `ok` week-grouping result, exactly one week bucket. -/
theorem C1_amended_witness :
    (∃! k, bucketMem (groupNotesByYearAndMonth [note0310, note0316])
      k note0310) ∧
    ∀ bs, groupNotesByWeek [note0310, note0316] = Except.ok bs →
      ∃! k, bucketMem bs k note0310 :=
  (C1_partition_amended [note0310, note0316] note0310
    (List.mem_cons_self note0310 [note0316])).1 (by decide)
